import Mathlib

set_option maxHeartbeats 1000000

/-!
Shallow embedding of the `ross` course-scheduling model builder.

The embedding follows `src/model/model_geneds.rs` and
`src/model/two_stage_schedule.rs` directly.  The CP-SAT builder
(`cp_sat::builder`) is embedded as a pure `Model` value: variables are
natural-number identifiers carrying an interval-list domain, linear
expressions are a constant plus a list of (coefficient, variable) terms
(mirroring the term-list representation the Rust builder accumulates),
and constraints are stored in emission order.  Solving is external in the
source (a blocking call into the CP-SAT backend), so the two-stage driver
is parameterised by a solver oracle `Model → Option (Nat → Int)`; `none`
plays the role of any non-`Optimal`/`Feasible` status.
-/

deriving instance DecidableEq for Except

/-- Course identifier, kept opaque (`CourseCode` in `schedule.rs`). -/
abbrev CourseCode := String

/-- A course record: code, credit hours and whether it is required. -/
structure Course where
  code : CourseCode
  credits : Int
  required : Bool
deriving DecidableEq, Repr, Inhabited

/-- The four `GenEdReq` shapes. -/
inductive GenEdReq where
  | set (codes : List CourseCode)
  | setOpts (opts : List (List CourseCode))
  | coursesReq (num : Nat) (courses : List CourseCode)
  | creditsReq (num : Nat) (courses : List CourseCode)
deriving DecidableEq, Repr

/-- The three GenEd categories, each carrying one requirement. -/
inductive GenEd where
  | core (req : GenEdReq)
  | foundation (req : GenEdReq)
  | skillAndPerspective (req : GenEdReq)
deriving DecidableEq, Repr

/-- The part of the catalog the model builder reads: its GenEd list. -/
structure Catalog where
  geneds : List GenEd
deriving DecidableEq, Repr

/-- Modelled from the spec: `Schedule` lives in `schedule.rs`, which is not
among the provided sources.  Per the spec it is an ordered sequence of
semesters, each an unordered collection of `CourseCode`; the driver reads
`sched.courses.len()` and overwrites `sched.courses` on success. -/
structure Schedule where
  courses : List (List CourseCode)
deriving DecidableEq, Repr

/-- A linear expression: constant plus (coefficient, variable) terms. -/
structure LinearExpr where
  const : Int
  terms : List (Int × Nat)
deriving DecidableEq, Repr

def LinearExpr.ofInt (n : Int) : LinearExpr := ⟨n, []⟩

def LinearExpr.ofVar (v : Nat) : LinearExpr := ⟨0, [(1, v)]⟩

def LinearExpr.add (a b : LinearExpr) : LinearExpr :=
  ⟨a.const + b.const, a.terms ++ b.terms⟩

def LinearExpr.sub (a b : LinearExpr) : LinearExpr :=
  ⟨a.const - b.const, a.terms ++ b.terms.map (fun t => (-t.1, t.2))⟩

/-- Value of a linear expression under an assignment. -/
def LinearExpr.eval (σ : Nat → Int) (e : LinearExpr) : Int :=
  e.const + (e.terms.map (fun t => t.1 * σ t.2)).sum

/-- Linear constraints (`add_le` / `add_ge` / `add_eq`). -/
inductive Constr where
  | le (a b : LinearExpr)
  | ge (a b : LinearExpr)
  | eqc (a b : LinearExpr)
deriving DecidableEq, Repr

def Constr.holds (σ : Nat → Int) : Constr → Prop
  | .le a b => a.eval σ ≤ b.eval σ
  | .ge a b => a.eval σ ≥ b.eval σ
  | .eqc a b => a.eval σ = b.eval σ

instance (σ : Nat → Int) : (c : Constr) → Decidable (c.holds σ)
  | .le a b => inferInstanceAs (Decidable (a.eval σ ≤ b.eval σ))
  | .ge a b => inferInstanceAs (Decidable (a.eval σ ≥ b.eval σ))
  | .eqc a b => inferInstanceAs (Decidable (a.eval σ = b.eval σ))

/-- The constraint model under construction (`CpModelBuilder`). -/
structure Model where
  doms : List (List (Int × Int))
  constrs : List Constr
  objective : Option LinearExpr
deriving DecidableEq, Repr

def Model.empty : Model := ⟨[], [], none⟩

def Model.numVars (m : Model) : Nat := m.doms.length

def Model.newVar (m : Model) (dom : List (Int × Int)) : Nat × Model :=
  (m.doms.length, { m with doms := m.doms ++ [dom] })

def Model.newBoolVar (m : Model) : Nat × Model := m.newVar [(0, 1)]

def Model.addLe (m : Model) (a b : LinearExpr) : Model :=
  { m with constrs := m.constrs ++ [.le a b] }

def Model.addGe (m : Model) (a b : LinearExpr) : Model :=
  { m with constrs := m.constrs ++ [.ge a b] }

def Model.addEq (m : Model) (a b : LinearExpr) : Model :=
  { m with constrs := m.constrs ++ [.eqc a b] }

def Model.minimize (m : Model) (e : LinearExpr) : Model :=
  { m with objective := some e }

/-- Membership of a value in a CP-SAT interval-list domain. -/
def InDom (d : List (Int × Int)) (x : Int) : Prop :=
  ∃ p ∈ d, p.1 ≤ x ∧ x ≤ p.2

instance (d : List (Int × Int)) (x : Int) : Decidable (InDom d x) :=
  inferInstanceAs (Decidable (∃ p ∈ d, p.1 ≤ x ∧ x ≤ p.2))

/-- An assignment is feasible for a model when every allocated variable
takes a value in its domain and every emitted constraint holds. -/
def Model.Feasible (m : Model) (σ : Nat → Int) : Prop :=
  (∀ v < m.doms.length, InDom (m.doms.getD v []) (σ v)) ∧
    (∀ c ∈ m.constrs, c.holds σ)

instance (m : Model) (σ : Nat → Int) : Decidable (m.Feasible σ) :=
  inferInstanceAs (Decidable (_ ∧ _))

/-! ## Embedding of `model_geneds.rs` (`add_gened_constraints`) -/

/-- Identifier of `vars[i][s]` in the decision matrix. -/
def varAt (vars : List (List Nat)) (i s : Nat) : Nat :=
  (vars.getD i []).getD s 0

/-- The `course_in_schedule` helper: sum of a course's row of decision
variables, built left-to-right starting from the literal `0`. -/
def course_in_schedule (vars : List (List Nat)) (numSemesters idx : Nat) : LinearExpr :=
  (List.range numSemesters).foldl
    (fun e s => e.add (.ofVar (varAt vars idx s))) (.ofInt 0)

/-- The `code_to_idx` hash map built from the flat course list by
enumeration; a later duplicate code overwrites an earlier index. -/
def code_to_idx (courses : List Course) (c : CourseCode) : Option Nat :=
  courses.enum.foldl (fun acc p => if p.2.code = c then some p.1 else acc) none

/-- The `codes_to_indices` helper: `collect` over `Option` — `some` only
when every code is present in the flat course list. -/
def codes_to_indices (courses : List Course) (codes : List CourseCode) : Option (List Nat) :=
  codes.mapM (code_to_idx courses)

/-- Sum of `LinearExpr::from` over a list of variables, from `0`. -/
def sumVarExprs (vs : List Nat) : LinearExpr :=
  vs.foldl (fun e v => e.add (.ofVar v)) (.ofInt 0)

/-- Sum of `course_in_schedule` over a list of course indices, from `0`. -/
def sumInSched (vars : List (List Nat)) (numSem : Nat) (indices : List Nat) : LinearExpr :=
  indices.foldl (fun e idx => e.add (course_in_schedule vars numSem idx)) (.ofInt 0)

/-- `n`-fold repeated addition of an expression onto `0` (the source's
`for _ in 0..n { scaled = scaled + expr }` expansion of scaling). -/
def nFoldAdd (n : Nat) (e : LinearExpr) : LinearExpr :=
  (List.range n).foldl (fun a _ => a.add e) (.ofInt 0)

/-- The option-set fold step of the Core `SetOpts` branch
(`model_geneds.rs` lines 54-79): each fully-present option set gets a
fresh boolean indicator with the two-sided big-M link; an option with an
absent code is skipped. -/
def setOptsStep (courses : List Course) (vars : List (List Nat)) (numSem : Nat)
    (acc : Model × List Nat) (opt : List CourseCode) : Model × List Nat :=
  match codes_to_indices courses opt with
  | some indices =>
    let allPresent := sumInSched vars numSem indices
    let vm := acc.1.newBoolVar
    let leExpr := (LinearExpr.ofInt 1).sub (.ofVar vm.1)
    let leScaled := nFoldAdd opt.length leExpr
    let m1 := vm.2.addLe allPresent ((LinearExpr.ofInt (opt.length : Int)).add leScaled)
    let geScaled := nFoldAdd opt.length leExpr
    let m2 := m1.addGe allPresent ((LinearExpr.ofInt (opt.length : Int)).sub geScaled)
    (m2, acc.2 ++ [vm.1])
  | none => acc

/-- Constraint emission for one `Core` GenEd requirement
(`model_geneds.rs` lines 40-115). -/
def addCoreGened (courses : List Course) (vars : List (List Nat)) (numSem : Nat)
    (m : Model) : GenEdReq → Model
  | .set codes =>
    match codes_to_indices courses codes with
    | some indices =>
      indices.foldl
        (fun m idx => m.addGe (course_in_schedule vars numSem idx) (.ofInt 1)) m
    | none => m
  | .setOpts opts =>
    let r := opts.foldl (setOptsStep courses vars numSem) (m, [])
    if r.2.isEmpty then r.1 else r.1.addGe (sumVarExprs r.2) (.ofInt 1)
  | .coursesReq num cs =>
    match codes_to_indices courses cs with
    | some indices => m.addGe (sumInSched vars numSem indices) (.ofInt (num : Int))
    | none => m
  | .creditsReq num cs =>
    match codes_to_indices courses cs with
    | some indices =>
      let sum := indices.foldl
        (fun e idx =>
          let cr := (courses.getD idx default).credits
          if 0 < cr then
            (List.range cr.toNat).foldl
              (fun a _ => a.add (course_in_schedule vars numSem idx)) e
          else if cr < 0 then
            (List.range (-cr).toNat).foldl
              (fun a _ => a.sub (course_in_schedule vars numSem idx)) e
          else e)
        (LinearExpr.ofInt 0)
      m.addGe sum (.ofInt (num : Int))
    | none => m

/-- The Core loop over the catalog's GenEd list. -/
def addCoreConstraints (courses : List Course) (vars : List (List Nat)) (numSem : Nat)
    (m : Model) (geneds : List GenEd) : Model :=
  geneds.foldl
    (fun m g =>
      match g with
      | .core req => addCoreGened courses vars numSem m req
      | _ => m) m

/-- What one Foundation requirement pushes onto `foundation_sets`
(`model_geneds.rs` lines 120-144): `none` when a `Set`/`Courses`/`Credits`
shape references an absent code (the push is skipped); `SetOpts` always
pushes the concatenation of its fully-present option sets. -/
def foundationContrib (courses : List Course) : GenEdReq → Option (List Nat)
  | .set codes => codes_to_indices courses codes
  | .setOpts opts =>
    some (opts.foldl (fun acc opt => acc ++ (codes_to_indices courses opt).getD []) [])
  | .coursesReq _ cs => codes_to_indices courses cs
  | .creditsReq _ cs => codes_to_indices courses cs

/-- The Foundation requirements in catalog order
(`geneds.iter().filter(Foundation)`). -/
def foundationReqsOf (geneds : List GenEd) : List GenEdReq :=
  geneds.filterMap
    (fun g => match g with | .foundation req => some req | _ => none)

/-- `foundation_sets`: eligible index sets of the Foundations that
contribute one. -/
def foundation_sets (courses : List Course) (geneds : List GenEd) : List (List Nat) :=
  (foundationReqsOf geneds).foldl
    (fun acc req =>
      match foundationContrib courses req with
      | some s => acc ++ [s]
      | none => acc) []

/-- The required count read off a `GenEdReq` shape (`Set` size, maximum
option-set size with `unwrap_or(1)`, or the explicit `num`). -/
def genedReqCount : GenEdReq → Int
  | .set codes => (codes.length : Int)
  | .setOpts opts => ((opts.map List.length).max?.getD 1 : Int)
  | .coursesReq num _ => (num : Int)
  | .creditsReq num _ => (num : Int)

/-- The required count paired with `foundation_sets[f]`: taken from the
`f`-th Foundation of the catalog (`...filter(Foundation).nth(f)`),
defaulting to `1` when there is none. -/
def foundation_required (geneds : List GenEd) (f : Nat) : Int :=
  match (foundationReqsOf geneds).get? f with
  | some req => genedReqCount req
  | none => 1

/-- `foundation_reqs`: each contributed set paired with the count looked
up by its position. -/
def foundation_reqs (courses : List Course) (geneds : List GenEd) :
    List (List Nat × Int) :=
  (foundation_sets courses geneds).enum.map
    (fun p => (p.2, foundation_required geneds p.1))

/-- Append `v` to the entry of key `k` of an association list, creating
the entry if absent (the `entry(idx).or_default().push(f)` pattern; the
Rust `HashMap` iterates in an unspecified order, embedded here in
first-insertion order, which no emitted constraint set depends on). -/
def assocPush (acc : List (Nat × List Nat)) (k v : Nat) : List (Nat × List Nat) :=
  if acc.any (fun p => p.1 = k) then
    acc.map (fun p => if p.1 = k then (p.1, p.2 ++ [v]) else p)
  else acc ++ [(k, [v])]

/-- `course_foundations`: course index ↦ list of eligible Foundations. -/
def course_foundations (freqs : List (List Nat × Int)) : List (Nat × List Nat) :=
  freqs.enum.foldl
    (fun acc p => p.2.1.foldl (fun acc idx => assocPush acc idx p.1) acc) []

/-- One step of the Foundation-assignment inner loop: a fresh boolean
assignment variable, bounded above by the course's in-schedule
indicator. -/
def assignStep (vars : List (List Nat)) (numSem idx : Nat)
    (acc : Model × List Nat) (_f : Nat) : Model × List Nat :=
  let vm := acc.1.newBoolVar
  let m1 := vm.2.addLe (.ofVar vm.1) (course_in_schedule vars numSem idx)
  (m1, acc.2 ++ [vm.1])

/-- Assignment variables for one required course eligible for the
Foundations in `fs` (`model_geneds.rs` lines 167-184). -/
def addFoundationAssignCourse (vars : List (List Nat)) (numSem : Nat)
    (m : Model) (idx : Nat) (fs : List Nat) : Model :=
  let r := fs.foldl (assignStep vars numSem idx) (m, [])
  let sum := sumVarExprs r.2
  let m1 := r.1.addLe sum (.ofInt 1)
  m1.addEq sum (course_in_schedule vars numSem idx)

/-- The Foundation-assignment loop over `course_foundations`. -/
def addFoundationAssign (courses : List Course) (vars : List (List Nat)) (numSem : Nat)
    (m : Model) (cf : List (Nat × List Nat)) : Model :=
  cf.foldl
    (fun m p =>
      if (courses.getD p.1 default).required && !p.2.isEmpty then
        addFoundationAssignCourse vars numSem m p.1 p.2
      else m) m

/-- Per-Foundation coverage: sum of in-schedule indicators over the
eligible set is at least the paired required count (lines 187-200). -/
def addFoundationCounts (vars : List (List Nat)) (numSem : Nat)
    (m : Model) (freqs : List (List Nat × Int)) : Model :=
  freqs.foldl
    (fun m fr => m.addGe (sumInSched vars numSem fr.1) (.ofInt fr.2)) m

/-- Sum of in-schedule indicators over the non-required courses of the
intersection of two Foundation sets (the `HashSet` intersection is
embedded as deduplicated first-set order). -/
def interNonRequiredSum (courses : List Course) (vars : List (List Nat)) (numSem : Nat)
    (si sj : List Nat) : LinearExpr :=
  ((si.dedup).filter (fun idx => idx ∈ sj)).foldl
    (fun e idx =>
      if (courses.getD idx default).required then e
      else e.add (course_in_schedule vars numSem idx))
    (.ofInt 0)

/-- Pairwise Foundation overlap caps (lines 204-235). -/
def addFoundationPairCaps (courses : List Course) (vars : List (List Nat)) (numSem : Nat)
    (m : Model) (freqs : List (List Nat × Int)) : Model :=
  (List.range freqs.length).foldl
    (fun m i =>
      (List.range freqs.length).foldl
        (fun m j =>
          if i < j then
            let si := (freqs.getD i ([], 0)).1
            let sj := (freqs.getD j ([], 0)).1
            let inter := (si.dedup).filter (fun idx => idx ∈ sj)
            if inter.isEmpty then m
            else m.addLe (interNonRequiredSum courses vars numSem si sj) (.ofInt 0)
          else m) m) m

/-- `sp_sets`: eligible index sets of the Skill-and-Perspective GenEds
(lines 240-260). -/
def sp_sets (courses : List Course) (geneds : List GenEd) : List (List Nat) :=
  geneds.foldl
    (fun acc g =>
      match g with
      | .skillAndPerspective req =>
        match req with
        | .set codes =>
          match codes_to_indices courses codes with
          | some indices => acc ++ [indices]
          | none => acc
        | .coursesReq _ codes =>
          match codes_to_indices courses codes with
          | some indices => acc ++ [indices]
          | none => acc
        | .creditsReq _ codes =>
          match codes_to_indices courses codes with
          | some indices => acc ++ [indices]
          | none => acc
        | .setOpts opts =>
          acc ++ [opts.foldl (fun a opt => a ++ (codes_to_indices courses opt).getD []) []]
      | _ => acc) []

/-- The keys of `course_sp_counts` in first-appearance order (the Rust
`HashMap` iterates in an unspecified order, which nothing depends on). -/
def spCourseList (sets : List (List Nat)) : List Nat :=
  sets.foldl
    (fun acc s => s.foldl (fun acc idx => if idx ∈ acc then acc else acc ++ [idx]) acc) []

/-- `course_sp_counts[idx]`: incremented once per occurrence of `idx` in
each set (multiplicity counts, as in the source's nested loop). -/
def spCount (sets : List (List Nat)) (idx : Nat) : Nat :=
  sets.foldl (fun n s => n + (s.filter (fun j => j = idx)).length) 0

/-- One step of the used-for-category loop: when the course belongs to
the S&P set, a fresh boolean bounded by its in-schedule indicator. -/
def spStep (vars : List (List Nat)) (numSem idx : Nat)
    (acc : Model × List Nat) (s : List Nat) : Model × List Nat :=
  if idx ∈ s then
    let vm := acc.1.newBoolVar
    (vm.2.addLe (.ofVar vm.1) (course_in_schedule vars numSem idx), acc.2 ++ [vm.1])
  else acc

/-- The used-for-category variables and cap for one course eligible for
more than 3 S&P categories (lines 269-283). -/
def addSPCourse (vars : List (List Nat)) (numSem : Nat)
    (m : Model) (sets : List (List Nat)) (idx : Nat) : Model :=
  let r := sets.foldl (spStep vars numSem idx) (m, [])
  r.1.addLe (sumVarExprs r.2) (.ofInt 3)

/-- The Skill-and-Perspective block (lines 239-284). -/
def addSPConstraints (vars : List (List Nat)) (numSem : Nat)
    (m : Model) (sets : List (List Nat)) : Model :=
  (spCourseList sets).foldl
    (fun m idx => if 3 < spCount sets idx then addSPCourse vars numSem m sets idx else m) m

/-- Modelled from the spec: the catalog data, prerequisite relation and
flat course list reach the builder through `model_context.rs`, which is
not among the provided sources.  Prerequisite edges are index-based
relations over the course arena, as §9 of the spec prescribes. -/
structure ProblemData where
  courses : List Course
  catalog : Option Catalog
  prereqEdges : List (Nat × Nat)
deriving DecidableEq, Repr

/-- Modelled from the spec: `ModelBuilderContext` (`model_context.rs`, not
among the provided sources) owns the live constraint model, the decision
matrix, the flat course list, an optional reference to the GenEd catalog,
toggles for the prerequisite / GenEd / semester-credit-limit constraint
groups, and an optional floor on total scheduled credits (§3 of the spec). -/
structure ModelBuilderContext where
  model : Model
  courses : List Course
  vars : List (List Nat)
  numSemesters : Nat
  catalog : Option Catalog
  prereqsOn : Bool
  genedsOn : Bool
  semLimitOn : Bool
  minCredits : Option Int
  maxCreditsPerSemester : Int
  prereqEdges : List (Nat × Nat)
deriving DecidableEq, Repr

/-- Dispatch of `add_gened_constraints` over the whole catalog, in source
order: Core loop, Foundation assignment / coverage / pairwise caps, then
Skill-and-Perspective caps.  With no catalog reference it returns the
context untouched (`model_geneds.rs` lines 13-16). -/
def add_gened_constraints (ctx : ModelBuilderContext) : ModelBuilderContext :=
  match ctx.catalog with
  | none => ctx
  | some catalog =>
    let geneds := catalog.geneds
    let m := addCoreConstraints ctx.courses ctx.vars ctx.numSemesters ctx.model geneds
    let freqs := foundation_reqs ctx.courses geneds
    let m := addFoundationAssign ctx.courses ctx.vars ctx.numSemesters m
      (course_foundations freqs)
    let m := addFoundationCounts ctx.vars ctx.numSemesters m freqs
    let m := addFoundationPairCaps ctx.courses ctx.vars ctx.numSemesters m freqs
    let m := addSPConstraints ctx.vars ctx.numSemesters m (sp_sets ctx.courses geneds)
    { ctx with model := m }

/-! ## Spec-modelled model-builder pipeline (`model_context.rs` and the
variable-fabric / prerequisite / semester modules are not among the
provided sources; their behaviour is taken from §3, §4.1 and §4.2 of the
spec).  The GenEd step calls the `add_gened_constraints` embedding above,
which is translated from the source. -/

/-- Modelled from the spec: `ModelBuilderContext::new_with_toggles` — a
fresh context with an empty model, the given constraint-group toggles in
(prerequisites, geneds, semester-limit) order (the order the driver's
diagnostic loop names them), and no floor on total credits. -/
def new_with_toggles (data : ProblemData) (sched : Schedule) (maxCredits : Int)
    (prereqs geneds semlim : Bool) : ModelBuilderContext :=
  { model := Model.empty
    courses := data.courses
    vars := []
    numSemesters := sched.courses.length
    catalog := data.catalog
    prereqsOn := prereqs
    genedsOn := geneds
    semLimitOn := semlim
    minCredits := none
    maxCreditsPerSemester := maxCredits
    prereqEdges := data.prereqEdges }

/-- Modelled from the spec: `set_min_credits` records the floor on total
scheduled credits (§3: "an optional floor on total scheduled credits"). -/
def set_min_credits (ctx : ModelBuilderContext) (mc : Int) : ModelBuilderContext :=
  { ctx with minCredits := some mc }

/-- Modelled from the spec: the variable fabric allocates one boolean
decision variable per (course, semester) pair, in course-major order. -/
def allocateVars (m : Model) (numCourses numSem : Nat) : Model × List (List Nat) :=
  ((List.range (numCourses * numSem)).foldl (fun m _ => (m.newBoolVar).2) m,
   (List.range numCourses).map
     (fun i => (List.range numSem).map (fun s => m.doms.length + i * numSem + s)))

/-- The flat course list paired with credits, as the driver receives it
(`flat_courses : Vec<(Course, i64)>`). -/
def flatCoursesOf (courses : List Course) : List (Course × Int) :=
  courses.map (fun c => (c, c.credits))

/-- The credit-weighted sum of one semester's column of decision
variables, built from collected weighted terms as in the driver
(`two_stage_schedule.rs` lines 129-134). -/
def semesterCreditExpr (flat : List (Course × Int)) (vars : List (List Nat))
    (s : Nat) : LinearExpr :=
  ⟨0, flat.enum.map (fun p => (p.2.2, varAt vars p.1 s))⟩

/-- Modelled from the spec: the credit-weighted sum over all decision
variables (`ctx.total_credits_expr(&vars, &flat_courses)`). -/
def total_credits_expr (flat : List (Course × Int)) (vars : List (List Nat))
    (numSem : Nat) : LinearExpr :=
  ⟨0, (flat.enum.map
        (fun p => (List.range numSem).map (fun s => (p.2.2, varAt vars p.1 s)))).flatten⟩

/-- Modelled from the spec: each course is scheduled at most once across
all semesters (§4.1). -/
def atMostOnceConstrs (vars : List (List Nat)) (numSem numCourses : Nat) : List Constr :=
  (List.range numCourses).map
    (fun i => .le (course_in_schedule vars numSem i) (.ofInt 1))

/-- Modelled from the spec: when the semester-limit toggle is on, each
semester's weighted credit sum is capped by `max_credits_per_semester`
(§4.1). -/
def semCapConstrs (flat : List (Course × Int)) (vars : List (List Nat))
    (numSem : Nat) (maxCredits : Int) : List Constr :=
  (List.range numSem).map
    (fun s => .le (semesterCreditExpr flat vars s) (.ofInt maxCredits))

/-- Modelled from the spec: for each prerequisite edge (a required before
b), if both are scheduled then a's semester index is strictly below b's
(§4.2, §8): b at semester s excludes a at any semester t ≥ s. -/
def prereqConstrs (vars : List (List Nat)) (numSem : Nat)
    (edges : List (Nat × Nat)) : List Constr :=
  (edges.map
    (fun e =>
      ((List.range numSem).map
        (fun s => (List.range numSem).filterMap
          (fun t =>
            if s ≤ t then
              some (Constr.le
                ((LinearExpr.ofVar (varAt vars e.2 s)).add (.ofVar (varAt vars e.1 t)))
                (.ofInt 1))
            else none))).flatten)).flatten

/-- Modelled from the spec: the variable-fabric stage — allocate the
decision matrix and emit the at-most-once constraints (§4.1). -/
def pipelineBase (ctx : ModelBuilderContext) : ModelBuilderContext :=
  let av := allocateVars ctx.model ctx.courses.length ctx.numSemesters
  { ctx with
      model := { av.1 with
        constrs := av.1.constrs ++
          atMostOnceConstrs av.2 ctx.numSemesters ctx.courses.length }
      vars := av.2 }

/-- Modelled from the spec: the per-semester credit caps, when the
semester-limit toggle is on (§4.1). -/
def pipelineSem (ctx : ModelBuilderContext) : ModelBuilderContext :=
  if ctx.semLimitOn then
    { ctx with model := { ctx.model with
        constrs := ctx.model.constrs ++
          semCapConstrs (flatCoursesOf ctx.courses) ctx.vars ctx.numSemesters
            ctx.maxCreditsPerSemester } }
  else ctx

/-- Modelled from the spec: the prerequisite constraints, when their
toggle is on (§4.2). -/
def pipelinePrereq (ctx : ModelBuilderContext) : ModelBuilderContext :=
  if ctx.prereqsOn then
    { ctx with model := { ctx.model with
        constrs := ctx.model.constrs ++
          prereqConstrs ctx.vars ctx.numSemesters ctx.prereqEdges } }
  else ctx

/-- The GenEd stage: runs the source-translated `add_gened_constraints`
when the GenEd toggle is on. -/
def pipelineGened (ctx : ModelBuilderContext) : ModelBuilderContext :=
  if ctx.genedsOn then add_gened_constraints ctx else ctx

/-- Modelled from the spec: the optional floor on total scheduled credits
(§3; set by stage 2 only). -/
def pipelineFloor (ctx : ModelBuilderContext) : ModelBuilderContext :=
  match ctx.minCredits with
  | some mc =>
    { ctx with
        model := ctx.model.addGe
          (total_credits_expr (flatCoursesOf ctx.courses) ctx.vars ctx.numSemesters)
          (.ofInt mc) }
  | none => ctx

/-- Modelled from the spec: `build_model_pipeline` — allocate the decision
matrix, then emit the at-most-once constraints, the per-semester credit
caps and prerequisite constraints when their toggles are on, run the GenEd
module (source-translated) when its toggle is on, and realise the optional
total-credit floor. -/
def build_model_pipeline (ctx : ModelBuilderContext) : ModelBuilderContext :=
  pipelineFloor (pipelineGened (pipelinePrereq (pipelineSem (pipelineBase ctx))))

/-! ## Embedding of `two_stage_schedule.rs` (`two_stage_lex_schedule`) -/

/-- One `[DIAG]` line of the constraint-group toggle sweep: the toggle
triple and whether the solve came back feasible. -/
structure DiagEntry where
  prereqsFlag : Bool
  genedsFlag : Bool
  semlimFlag : Bool
  feasible : Bool
deriving DecidableEq, Repr

/-- Per-semester integer credit variables: for each semester an `IntVar`
over `[0, max_credits_per_semester * flat_courses.len()]` tied by equality
to the semester's weighted credit sum (`two_stage_schedule.rs` lines
127-142, also built by each diagnostic iteration). -/
def addSemesterCreditVars (m : Model) (flat : List (Course × Int))
    (vars : List (List Nat)) (numSem : Nat) (maxCredits : Int) : Model × List Nat :=
  (List.range numSem).foldl
    (fun (acc : Model × List Nat) s =>
      let expr := semesterCreditExpr flat vars s
      let vm := acc.1.newVar [(0, maxCredits * (flat.length : Int))]
      let m1 := vm.2.addEq (.ofVar vm.1) expr
      (m1, acc.2 ++ [vm.1]))
    (m, [])

/-- The model a diagnostic sweep iteration builds: the pipeline for the
given toggles (with the stage-1 floor when sweeping for stage 2) plus the
per-semester credit variables (`two_stage_schedule.rs` lines 65-80 and
102-118). -/
def diagModel (data : ProblemData) (sched : Schedule) (maxCredits : Int)
    (mc : Option Int) (prereqs geneds semlim : Bool) : Model :=
  let ctx := new_with_toggles data sched maxCredits prereqs geneds semlim
  let ctx := match mc with
    | some v => set_min_credits ctx v
    | none => ctx
  let ctx := build_model_pipeline ctx
  (addSemesterCreditVars ctx.model (flatCoursesOf ctx.courses) ctx.vars
    sched.courses.length maxCredits).1

/-- The four-variant toggle sweep; each entry records the toggles and the
solver status, and nothing else of the run is kept. -/
def diagSweep (data : ProblemData) (sched : Schedule) (maxCredits : Int)
    (mc : Option Int) (solve : Model → Option (Nat → Int)) : List DiagEntry :=
  [(false, true, true), (true, false, true), (true, true, false), (true, true, true)].map
    (fun t =>
      ⟨t.1, t.2.1, t.2.2,
        (solve (diagModel data sched maxCredits mc t.1 t.2.1 t.2.2)).isSome⟩)

/-- The stage-1 builder context: `new_with_toggles(sched, max, true, true,
false)` — prerequisites and GenEds on, the semester-credit limit OFF
("Only semester limit OFF for this run", `two_stage_schedule.rs` line 34),
and no floor on total credits. -/
def stage1BuilderCtx (data : ProblemData) (sched : Schedule) (maxCredits : Int) :
    ModelBuilderContext :=
  new_with_toggles data sched maxCredits true true false

/-- The stage-1 context after `build_model_pipeline`. -/
def stage1Ctx (data : ProblemData) (sched : Schedule) (maxCredits : Int) :
    ModelBuilderContext :=
  build_model_pipeline (stage1BuilderCtx data sched maxCredits)

/-- The stage-1 model: the pipeline plus the minimize-total-credits
objective. -/
def stage1Model (data : ProblemData) (sched : Schedule) (maxCredits : Int) : Model :=
  (stage1Ctx data sched maxCredits).model.minimize
    (total_credits_expr (flatCoursesOf (stage1Ctx data sched maxCredits).courses)
      (stage1Ctx data sched maxCredits).vars sched.courses.length)

/-- `min_credits` extraction: sum the credits of every true decision
variable of the stage-1 solution (`two_stage_schedule.rs` lines 44-55). -/
def extractMinCredits (flat : List (Course × Int)) (vars : List (List Nat))
    (numSem : Nat) (σ : Nat → Int) : Int :=
  flat.enum.foldl
    (fun t p =>
      (List.range numSem).foldl
        (fun t s => if σ (varAt vars p.1 s) = 1 then t + p.2.2 else t) t) 0

/-- The stage-2 builder context: all three toggles on and the floor set to
`min_credits` (`two_stage_schedule.rs` lines 90-91). -/
def stage2BuilderCtx (data : ProblemData) (sched : Schedule) (maxCredits mc : Int) :
    ModelBuilderContext :=
  set_min_credits (new_with_toggles data sched maxCredits true true true) mc

/-- The stage-2 context after `build_model_pipeline`. -/
def stage2Ctx (data : ProblemData) (sched : Schedule) (maxCredits mc : Int) :
    ModelBuilderContext :=
  build_model_pipeline (stage2BuilderCtx data sched maxCredits mc)

/-- Signed and absolute deviation variables per semester credit variable
(`two_stage_schedule.rs` lines 144-169): `diff = credits − mean_load`, and
`abs_diff` bounded below by `diff` and by `0 − diff`. -/
def addDeviationVars (m : Model) (creditVars : List Nat) (meanLoad bound : Int) :
    Model × List Nat :=
  creditVars.foldl
    (fun (acc : Model × List Nat) cv =>
      let dm := acc.1.newVar [(-bound, bound)]
      let m1 := dm.2.addEq (.ofVar dm.1) ((LinearExpr.ofVar cv).sub (.ofInt meanLoad))
      let am := m1.newVar [(0, bound)]
      let m2 := am.2.addGe (.ofVar am.1) (.ofVar dm.1)
      let m3 := m2.addGe (.ofVar am.1) ((LinearExpr.ofInt 0).sub (.ofVar dm.1))
      (m3, acc.2 ++ [am.1]))
    (m, [])

/-- The complete stage-2 model: pipeline (with floor), per-semester credit
variables, deviation variables, and the minimize-spread objective.
`mean_load = min_credits / num_semesters` with Rust `i64` division
(truncation toward zero, `Int.tdiv`). -/
def stage2FullModel (data : ProblemData) (sched : Schedule) (maxCredits mc : Int) : Model :=
  let ctx := stage2Ctx data sched maxCredits mc
  let numSem := sched.courses.length
  let flat := flatCoursesOf ctx.courses
  let scv := addSemesterCreditVars ctx.model flat ctx.vars numSem maxCredits
  let meanLoad := mc.tdiv (numSem : Int)
  let bound := maxCredits * (flat.length : Int)
  let dv := addDeviationVars scv.1 scv.2 meanLoad bound
  let spread := dv.2.foldl (fun e v => e.add (.ofVar v)) (.ofInt 0)
  dv.1.minimize spread

/-- Schedule extraction from the stage-2 solution: for each semester, the
codes of the courses whose decision variable is true there, in flat-list
order (`two_stage_schedule.rs` lines 180-193). -/
def extractSchedule (flat : List (Course × Int)) (vars : List (List Nat))
    (numSem : Nat) (σ : Nat → Int) : List (List CourseCode) :=
  (List.range numSem).map
    (fun s => flat.enum.filterMap
      (fun p => if σ (varAt vars p.1 s) = 1 then some p.2.1.code else none))

/-- The two-stage lexicographic scheduler (`two_stage_lex_schedule`).
The returned triple is (the schedule as left behind in the `&mut`
argument, the `Result`, the `[DIAG]` sweep lines printed).  `solve` is the
external CP-SAT backend: `none` stands for any status other than
`Optimal`/`Feasible` (the backend is deterministic per model — fixed
random seed, fixed limits — so it is a function of the model). -/
def two_stage_lex_schedule (data : ProblemData) (sched : Schedule) (maxCredits : Int)
    (solve : Model → Option (Nat → Int)) :
    Schedule × Except String Unit × List DiagEntry :=
  match solve (stage1Model data sched maxCredits) with
  | none =>
    (sched, .error "No feasible solution found in single-stage scheduling",
      diagSweep data sched maxCredits none solve)
  | some σ =>
    let ctx1 := stage1Ctx data sched maxCredits
    let minCr := extractMinCredits (flatCoursesOf ctx1.courses) ctx1.vars
      sched.courses.length σ
    let diag := diagSweep data sched maxCredits (some minCr) solve
    let ctx2 := stage2Ctx data sched maxCredits minCr
    match solve (stage2FullModel data sched maxCredits minCr) with
    | none =>
      (sched, .error "No feasible solution found in two-stage scheduling", diag)
    | some σ2 =>
      ({ sched with
          courses := extractSchedule (flatCoursesOf ctx2.courses) ctx2.vars
            sched.courses.length σ2 },
        .ok (), diag)

/-! ## Derived quantities and sample instances used in the statements -/

/-- The `min_credits` value stage 1 extracts from a stage-1 solution. -/
def minCreditsOf (data : ProblemData) (sched : Schedule) (maxCredits : Int)
    (σ : Nat → Int) : Int :=
  extractMinCredits (flatCoursesOf (stage1Ctx data sched maxCredits).courses)
    (stage1Ctx data sched maxCredits).vars sched.courses.length σ

/-- Total credits the stage-2 solution places into some semester (the sum
of credits of all courses whose decision variable is true somewhere). -/
def stage2CommittedCredits (data : ProblemData) (sched : Schedule)
    (maxCredits mc : Int) (σ2 : Nat → Int) : Int :=
  extractMinCredits (flatCoursesOf (stage2Ctx data sched maxCredits mc).courses)
    (stage2Ctx data sched maxCredits mc).vars sched.courses.length σ2

/-- Total credits of a schedule, looking each code up in a course list. -/
def scheduleCredits (courses : List Course) (sched : Schedule) : Int :=
  (sched.courses.map
    (fun sem =>
      (sem.map (fun code => ((courses.find? (fun c => c.code == code)).getD default).credits)).sum)).sum

/-- A context that has been through the pipeline with every toggle off:
decision matrix allocated, at-most-once constraints emitted, nothing
else.  Used to exercise `add_gened_constraints` on concrete instances. -/
def ctxOf (data : ProblemData) (sched : Schedule) (maxCredits : Int) :
    ModelBuilderContext :=
  build_model_pipeline (new_with_toggles data sched maxCredits false false false)

/-- Every variable occurring in an expression is below `n`. -/
def exprVarsBelow (e : LinearExpr) (n : Nat) : Prop :=
  ∀ t ∈ e.terms, t.2 < n

instance (e : LinearExpr) (n : Nat) : Decidable (exprVarsBelow e n) :=
  inferInstanceAs (Decidable (∀ t ∈ e.terms, t.2 < n))

/-- Every variable occurring in a constraint is below `n`. -/
def Constr.varsBelow : Constr → Nat → Prop
  | .le a b, n => exprVarsBelow a n ∧ exprVarsBelow b n
  | .ge a b, n => exprVarsBelow a n ∧ exprVarsBelow b n
  | .eqc a b, n => exprVarsBelow a n ∧ exprVarsBelow b n

instance : (c : Constr) → (n : Nat) → Decidable (c.varsBelow n)
  | .le _ _, _ => inferInstanceAs (Decidable (_ ∧ _))
  | .ge _ _, _ => inferInstanceAs (Decidable (_ ∧ _))
  | .eqc _ _, _ => inferInstanceAs (Decidable (_ ∧ _))

/-- Shape of the constraints the Skill-and-Perspective block emits on top
of a base model of `base` variables: an upper bound of a fresh
used-for-category variable by an in-schedule indicator, or the cap of a
sum of fresh used-for-category variables at 3. -/
def spNewConstr (base : Nat) (vars : List (List Nat)) (ns : Nat)
    (sets : List (List Nat)) (c : Constr) : Prop :=
  (∃ u idx, base ≤ u ∧ idx ∈ spCourseList sets ∧
    c = .le (.ofVar u) (course_in_schedule vars ns idx)) ∨
  (∃ us, (∀ u ∈ us, base ≤ u) ∧ c = .le (sumVarExprs us) (.ofInt 3))

/-- Sample instance: course A (6 credits, required), elective E (3
credits), one Core `Set([A])`, two semesters, cap 10. -/
def dataA : ProblemData :=
  ⟨[⟨"A", 6, true⟩, ⟨"E", 3, false⟩], some ⟨[.core (.set ["A"])]⟩, []⟩

/-- A two-semester schedule shell. -/
def schedTwo : Schedule := ⟨[[], []]⟩

/-- A one-semester schedule shell. -/
def schedOne : Schedule := ⟨[[]]⟩

/-- Stage-1 solution for `dataA`: A in semester 0, E unscheduled. -/
def sigma1 : Nat → Int := fun v => if v = 0 then 1 else 0

/-- Stage-2 solution for `dataA`: A in semester 0, E in semester 1,
semester credits (6,3), deviations (3,0) about the mean load 3. -/
def sigma2 : Nat → Int := fun v => ([1, 0, 0, 1, 6, 3, 3, 3, 0, 0] : List Int).getD v 0

/-- A backend for `dataA`/`schedTwo`: answers the 4-variable stage-1
model with `sigma1`, the 10-variable stage-2 model with `sigma2`, and
reports the 6-variable diagnostic models unsolved. -/
def oracleA : Model → Option (Nat → Int) := fun m =>
  if m.doms.length = 4 then some sigma1
  else if m.doms.length = 10 then some sigma2 else none

/-- A backend that answers every model with the all-zero assignment. -/
def oracleZero : Model → Option (Nat → Int) := fun _ => some (fun _ => 0)

/-- A backend that answers no model. -/
def oracleNone : Model → Option (Nat → Int) := fun _ => none

/-- Sample instance: a Core `Set` naming a code absent from the course
list. -/
def dataMiss : ProblemData :=
  ⟨[⟨"X", 3, false⟩], some ⟨[.core (.set ["X", "MISS"])]⟩, []⟩

/-- Sample instance: the first Foundation references an absent code (so it
contributes no eligible set); the second requires 2 of the present X, Y. -/
def dataFnd : ProblemData :=
  ⟨[⟨"X", 3, false⟩, ⟨"Y", 3, false⟩],
   some ⟨[.foundation (.set ["MISS"]), .foundation (.coursesReq 2 ["X", "Y"])]⟩, []⟩

/-- Sample instance: one Foundation over the single required course X. -/
def dataFnd2 : ProblemData :=
  ⟨[⟨"X", 3, true⟩], some ⟨[.foundation (.coursesReq 1 ["X"])]⟩, []⟩

/-- Sample instance: one Core `SetOpts` with the single option {X, Y}. -/
def dataOpts : ProblemData :=
  ⟨[⟨"X", 3, false⟩, ⟨"Y", 3, false⟩], some ⟨[.core (.setOpts [["X", "Y"]])]⟩, []⟩

/-- Sample instance: one course eligible for four S&P categories. -/
def dataSP : ProblemData :=
  ⟨[⟨"X", 3, false⟩],
   some ⟨[.skillAndPerspective (.set ["X"]), .skillAndPerspective (.set ["X"]),
          .skillAndPerspective (.set ["X"]), .skillAndPerspective (.set ["X"])]⟩, []⟩

/-- The facts claim C6 asserts about a required course's Foundation
assignment variables `avs` within a model: each is a boolean variable
bounded above by the course's in-schedule indicator, their sum is capped
at 1, and their sum equals the in-schedule indicator. -/
def assignCourseFacts (vars : List (List Nat)) (ns idx : Nat) (avs : List Nat)
    (M : Model) : Prop :=
  (∀ a ∈ avs, Constr.le (.ofVar a) (course_in_schedule vars ns idx) ∈ M.constrs ∧
    a < M.doms.length ∧ M.doms.getD a [] = [((0 : Int), (1 : Int))]) ∧
  Constr.le (sumVarExprs avs) (.ofInt 1) ∈ M.constrs ∧
  Constr.eqc (sumVarExprs avs) (course_in_schedule vars ns idx) ∈ M.constrs

/-- The two big-M constraints claim C7 asserts for one fully-present
option set: with indicator `v` and option size `n`, the sum of in-schedule
indicators over the option is bounded above by `n + n·(1−v)` and below by
`n − n·(1−v)`, and `v` is a boolean variable of the model. -/
def optIndicatorFacts (vars : List (List Nat)) (ns : Nat) (indices : List Nat)
    (n v : Nat) (M : Model) : Prop :=
  v < M.doms.length ∧ M.doms.getD v [] = [((0 : Int), (1 : Int))] ∧
  Constr.le (sumInSched vars ns indices)
      ((LinearExpr.ofInt (n : Int)).add
        (nFoldAdd n ((LinearExpr.ofInt 1).sub (.ofVar v)))) ∈ M.constrs ∧
  Constr.ge (sumInSched vars ns indices)
      ((LinearExpr.ofInt (n : Int)).sub
        (nFoldAdd n ((LinearExpr.ofInt 1).sub (.ofVar v)))) ∈ M.constrs

/-- The full `SetOpts` facts for one option: some group `ovs` of boolean
indicator variables contains the option's indicator `v`, carries the
option's two-sided big-M link, and is required to sum to at least 1. -/
def setOptsBlockFacts (vars : List (List Nat)) (ns : Nat) (indices : List Nat)
    (n : Nat) (M : Model) : Prop :=
  ∃ ovs v, v ∈ ovs ∧
    (∀ u ∈ ovs, u < M.doms.length ∧ M.doms.getD u [] = [((0 : Int), (1 : Int))]) ∧
    optIndicatorFacts vars ns indices n v M ∧
    Constr.ge (sumVarExprs ovs) (.ofInt 1) ∈ M.constrs

/-! ## Shared infrastructure lemmas: every builder step only appends to
the domain and constraint lists. -/

/-- `m` extends `base`: its domain and constraint lists grow `base`'s by
appending. -/
def ModelExt (base m : Model) : Prop :=
  (∃ d, m.doms = base.doms ++ d) ∧ (∃ c, m.constrs = base.constrs ++ c)

theorem modelExt_refl (m : Model) : ModelExt m m :=
  ⟨⟨[], by simp⟩, ⟨[], by simp⟩⟩

theorem modelExt_trans {m1 m2 m3 : Model} (h1 : ModelExt m1 m2) (h2 : ModelExt m2 m3) :
    ModelExt m1 m3 := by
  obtain ⟨⟨d1, hd1⟩, ⟨c1, hc1⟩⟩ := h1
  obtain ⟨⟨d2, hd2⟩, ⟨c2, hc2⟩⟩ := h2
  exact ⟨⟨d1 ++ d2, by simp [hd2, hd1]⟩, ⟨c1 ++ c2, by simp [hc2, hc1]⟩⟩

theorem modelExt_newVar (m : Model) (d : List (Int × Int)) :
    ModelExt m (m.newVar d).2 :=
  ⟨⟨[d], rfl⟩, ⟨[], by simp [Model.newVar]⟩⟩

theorem modelExt_newBoolVar (m : Model) : ModelExt m (m.newBoolVar).2 :=
  modelExt_newVar m [(0, 1)]

theorem modelExt_addLe (m : Model) (a b : LinearExpr) : ModelExt m (m.addLe a b) :=
  ⟨⟨[], by simp [Model.addLe]⟩, ⟨[.le a b], rfl⟩⟩

theorem modelExt_addGe (m : Model) (a b : LinearExpr) : ModelExt m (m.addGe a b) :=
  ⟨⟨[], by simp [Model.addGe]⟩, ⟨[.ge a b], rfl⟩⟩

theorem modelExt_addEq (m : Model) (a b : LinearExpr) : ModelExt m (m.addEq a b) :=
  ⟨⟨[], by simp [Model.addEq]⟩, ⟨[.eqc a b], rfl⟩⟩

/-- A fold whose every step extends the model extends the model. -/
theorem modelExt_foldl {α β : Type} (π : β → Model) (f : β → α → β)
    (h : ∀ b a, ModelExt (π b) (π (f b a))) (l : List α) (b : β) :
    ModelExt (π b) (π (l.foldl f b)) := by
  induction l generalizing b with
  | nil => exact modelExt_refl _
  | cons x xs ih => exact modelExt_trans (h b x) (ih (f b x))

theorem mem_constrs_of_modelExt {base m : Model} {c : Constr}
    (hext : ModelExt base m) (hc : c ∈ base.constrs) : c ∈ m.constrs := by
  obtain ⟨_, ⟨cs, hcs⟩⟩ := hext
  rw [hcs]
  exact List.mem_append_left _ hc

theorem doms_getD_of_modelExt {base m : Model} {v : Nat}
    (hext : ModelExt base m) (hv : v < base.doms.length) :
    m.doms.getD v [] = base.doms.getD v [] := by
  obtain ⟨⟨ds, hds⟩, _⟩ := hext
  rw [hds]
  exact List.getD_append _ _ _ _ hv

theorem doms_length_le_of_modelExt {base m : Model}
    (hext : ModelExt base m) : base.doms.length ≤ m.doms.length := by
  obtain ⟨⟨ds, hds⟩, _⟩ := hext
  simp [hds]

theorem addCoreGened_setOpts (courses : List Course) (vars : List (List Nat))
    (numSem : Nat) (m : Model) (opts : List (List CourseCode)) :
    addCoreGened courses vars numSem m (.setOpts opts) =
      (let r := opts.foldl (setOptsStep courses vars numSem) (m, [])
       if r.2.isEmpty then r.1 else r.1.addGe (sumVarExprs r.2) (.ofInt 1)) := by
  simp only [addCoreGened]

theorem modelExt_setOptsStep (courses : List Course) (vars : List (List Nat))
    (numSem : Nat) (acc : Model × List Nat) (opt : List CourseCode) :
    ModelExt acc.1 (setOptsStep courses vars numSem acc opt).1 := by
  cases h : codes_to_indices courses opt with
  | none => simp only [setOptsStep, h]; exact modelExt_refl _
  | some indices =>
    simp only [setOptsStep, h]
    exact modelExt_trans (modelExt_newBoolVar _)
      (modelExt_trans (modelExt_addLe _ _ _) (modelExt_addGe _ _ _))

theorem modelExt_addCoreGened (courses : List Course) (vars : List (List Nat))
    (numSem : Nat) (m : Model) (req : GenEdReq) :
    ModelExt m (addCoreGened courses vars numSem m req) := by
  cases req with
  | set codes =>
    simp only [addCoreGened]
    cases codes_to_indices courses codes with
    | none => exact modelExt_refl m
    | some indices =>
      exact modelExt_foldl id _ (fun b a => modelExt_addGe b _ _) indices m
  | setOpts opts =>
    rw [addCoreGened_setOpts]
    have hfold := modelExt_foldl Prod.fst (setOptsStep courses vars numSem)
      (modelExt_setOptsStep courses vars numSem) opts (m, ([] : List Nat))
    by_cases hempty : (opts.foldl (setOptsStep courses vars numSem)
        ((m, []) : Model × List Nat)).2.isEmpty
    · simp only [hempty, if_true]
      exact hfold
    · simp only [hempty, if_false]
      exact modelExt_trans hfold (modelExt_addGe _ _ _)
  | coursesReq num cs =>
    simp only [addCoreGened]
    cases codes_to_indices courses cs with
    | none => exact modelExt_refl m
    | some indices => exact modelExt_addGe m _ _
  | creditsReq num cs =>
    simp only [addCoreGened]
    cases codes_to_indices courses cs with
    | none => exact modelExt_refl m
    | some indices => exact modelExt_addGe m _ _

theorem modelExt_addCoreConstraints (courses : List Course) (vars : List (List Nat))
    (numSem : Nat) (m : Model) (geneds : List GenEd) :
    ModelExt m (addCoreConstraints courses vars numSem m geneds) := by
  refine modelExt_foldl id _ ?_ geneds m
  intro b g
  cases g with
  | core req => exact modelExt_addCoreGened courses vars numSem b req
  | foundation req => exact modelExt_refl b
  | skillAndPerspective req => exact modelExt_refl b

theorem modelExt_assignStep (vars : List (List Nat)) (numSem idx : Nat)
    (acc : Model × List Nat) (f : Nat) :
    ModelExt acc.1 (assignStep vars numSem idx acc f).1 := by
  unfold assignStep
  exact modelExt_trans (modelExt_newBoolVar _) (modelExt_addLe _ _ _)

theorem modelExt_addFoundationAssignCourse (vars : List (List Nat)) (numSem : Nat)
    (m : Model) (idx : Nat) (fs : List Nat) :
    ModelExt m (addFoundationAssignCourse vars numSem m idx fs) := by
  unfold addFoundationAssignCourse
  refine modelExt_trans (modelExt_trans ?_ (modelExt_addLe _ _ _)) (modelExt_addEq _ _ _)
  exact modelExt_foldl Prod.fst _ (modelExt_assignStep vars numSem idx) fs (m, [])

theorem modelExt_addFoundationAssign (courses : List Course) (vars : List (List Nat))
    (numSem : Nat) (m : Model) (cf : List (Nat × List Nat)) :
    ModelExt m (addFoundationAssign courses vars numSem m cf) := by
  refine modelExt_foldl id _ ?_ cf m
  intro b p
  by_cases h : (courses.getD p.1 default).required && !p.2.isEmpty
  · simp only [id, h, if_true]
    exact modelExt_addFoundationAssignCourse vars numSem b p.1 p.2
  · simp only [id, h, if_false]
    exact modelExt_refl b

theorem modelExt_addFoundationCounts (vars : List (List Nat)) (numSem : Nat)
    (m : Model) (freqs : List (List Nat × Int)) :
    ModelExt m (addFoundationCounts vars numSem m freqs) :=
  modelExt_foldl id _ (fun b a => modelExt_addGe b _ _) freqs m

theorem modelExt_addFoundationPairCaps (courses : List Course) (vars : List (List Nat))
    (numSem : Nat) (m : Model) (freqs : List (List Nat × Int)) :
    ModelExt m (addFoundationPairCaps courses vars numSem m freqs) := by
  refine modelExt_foldl id _ ?_ (List.range freqs.length) m
  intro b i
  refine modelExt_foldl id _ ?_ (List.range freqs.length) b
  intro b j
  by_cases hij : i < j
  · simp only [id, hij, if_true]
    by_cases hint : (((freqs.getD i ([], 0)).1.dedup).filter
        (fun idx => idx ∈ (freqs.getD j ([], 0)).1)).isEmpty
    · simp only [hint, if_true]
      exact modelExt_refl b
    · simp only [hint, if_false]
      exact modelExt_addLe b _ _
  · simp only [id, hij, if_false]
    exact modelExt_refl b

theorem modelExt_spStep (vars : List (List Nat)) (numSem idx : Nat)
    (acc : Model × List Nat) (s : List Nat) :
    ModelExt acc.1 (spStep vars numSem idx acc s).1 := by
  unfold spStep
  by_cases h : idx ∈ s
  · simp only [h, if_true]
    exact modelExt_trans (modelExt_newBoolVar _) (modelExt_addLe _ _ _)
  · simp only [h, if_false]
    exact modelExt_refl _

theorem modelExt_addSPCourse (vars : List (List Nat)) (numSem : Nat)
    (m : Model) (sets : List (List Nat)) (idx : Nat) :
    ModelExt m (addSPCourse vars numSem m sets idx) := by
  unfold addSPCourse
  refine modelExt_trans ?_ (modelExt_addLe _ _ _)
  exact modelExt_foldl Prod.fst _ (modelExt_spStep vars numSem idx) sets (m, [])

theorem modelExt_addSPConstraints (vars : List (List Nat)) (numSem : Nat)
    (m : Model) (sets : List (List Nat)) :
    ModelExt m (addSPConstraints vars numSem m sets) := by
  refine modelExt_foldl id _ ?_ (spCourseList sets) m
  intro b idx
  by_cases h : 3 < spCount sets idx
  · simp only [id, h, if_true]
    exact modelExt_addSPCourse vars numSem b sets idx
  · simp only [id, h, if_false]
    exact modelExt_refl b

theorem modelExt_add_gened_constraints (ctx : ModelBuilderContext) :
    ModelExt ctx.model (add_gened_constraints ctx).model := by
  cases h : ctx.catalog with
  | none => simp only [add_gened_constraints, h]; exact modelExt_refl _
  | some catalog =>
    simp only [add_gened_constraints, h]
    exact modelExt_trans (modelExt_addCoreConstraints _ _ _ _ _)
      (modelExt_trans (modelExt_addFoundationAssign _ _ _ _ _)
        (modelExt_trans (modelExt_addFoundationCounts _ _ _ _)
          (modelExt_trans (modelExt_addFoundationPairCaps _ _ _ _ _)
            (modelExt_addSPConstraints _ _ _ _))))

theorem modelExt_minimize (m : Model) (e : LinearExpr) : ModelExt m (m.minimize e) :=
  ⟨⟨[], by simp [Model.minimize]⟩, ⟨[], by simp [Model.minimize]⟩⟩

/-- A fold whose steps extend the model and one of whose steps emits a
constraint (for any accumulator) leaves that constraint in the result. -/
theorem foldl_mem_constrs {α β : Type} (π : β → Model) (f : β → α → β)
    (hext : ∀ b a, ModelExt (π b) (π (f b a)))
    (c : Constr) {l : List α} {a : α} (ha : a ∈ l)
    (hemit : ∀ b, c ∈ (π (f b a)).constrs) :
    ∀ b, c ∈ (π (l.foldl f b)).constrs := by
  induction l with
  | nil => cases ha
  | cons x xs ih =>
    intro b
    rcases List.mem_cons.mp ha with hax | hatl
    · simp only [List.foldl_cons]
      exact mem_constrs_of_modelExt (modelExt_foldl π f hext xs (f b x)) (hax ▸ hemit b)
    · exact ih hatl (f b x)

/-- `add_gened_constraints` leaves a catalog-less context untouched. -/
theorem add_gened_constraints_none {ctx : ModelBuilderContext}
    (h : ctx.catalog = none) : add_gened_constraints ctx = ctx := by
  simp only [add_gened_constraints, h]

/-! ## Evaluation lemmas for the expression builders -/

theorem eval_ofInt (n : Int) (σ : Nat → Int) : (LinearExpr.ofInt n).eval σ = n := by
  simp [LinearExpr.ofInt, LinearExpr.eval]

theorem eval_ofVar (v : Nat) (σ : Nat → Int) : (LinearExpr.ofVar v).eval σ = σ v := by
  simp [LinearExpr.ofVar, LinearExpr.eval]

theorem eval_add (a b : LinearExpr) (σ : Nat → Int) :
    (a.add b).eval σ = a.eval σ + b.eval σ := by
  simp [LinearExpr.add, LinearExpr.eval]
  ring

theorem eval_sub (a b : LinearExpr) (σ : Nat → Int) :
    (a.sub b).eval σ = a.eval σ - b.eval σ := by
  simp only [LinearExpr.sub, LinearExpr.eval, List.map_append, List.sum_append, List.map_map]
  have : (b.terms.map ((fun t => t.1 * σ t.2) ∘ fun t => (-t.1, t.2))).sum =
      -((b.terms.map (fun t => t.1 * σ t.2)).sum) := by
    induction b.terms with
    | nil => simp
    | cons h t ih => simp [ih]; ring
  rw [this]
  ring

/-- Evaluation of a left fold of `add`s of expressions. -/
theorem eval_foldl_add {α : Type} (g : α → LinearExpr) (l : List α)
    (e0 : LinearExpr) (σ : Nat → Int) :
    (l.foldl (fun e x => e.add (g x)) e0).eval σ =
      e0.eval σ + (l.map (fun x => (g x).eval σ)).sum := by
  induction l generalizing e0 with
  | nil => simp
  | cons x xs ih => simp [ih, eval_add]; ring

theorem eval_sumVarExprs (vs : List Nat) (σ : Nat → Int) :
    (sumVarExprs vs).eval σ = (vs.map σ).sum := by
  have := eval_foldl_add (fun v : Nat => LinearExpr.ofVar v) vs (.ofInt 0) σ
  simp only [sumVarExprs]
  rw [this]
  simp [eval_ofInt, eval_ofVar]

theorem eval_course_in_schedule (vars : List (List Nat)) (ns idx : Nat) (σ : Nat → Int) :
    (course_in_schedule vars ns idx).eval σ =
      ((List.range ns).map (fun s => σ (varAt vars idx s))).sum := by
  have := eval_foldl_add (fun s : Nat => LinearExpr.ofVar (varAt vars idx s))
    (List.range ns) (.ofInt 0) σ
  simp only [course_in_schedule]
  rw [this]
  simp [eval_ofInt, eval_ofVar]

theorem eval_sumInSched (vars : List (List Nat)) (ns : Nat) (indices : List Nat)
    (σ : Nat → Int) :
    (sumInSched vars ns indices).eval σ =
      (indices.map (fun idx => (course_in_schedule vars ns idx).eval σ)).sum := by
  have := eval_foldl_add (fun idx : Nat => course_in_schedule vars ns idx)
    indices (.ofInt 0) σ
  simp only [sumInSched]
  rw [this]
  simp [eval_ofInt]

theorem eval_nFoldAdd (n : Nat) (e : LinearExpr) (σ : Nat → Int) :
    (nFoldAdd n e).eval σ = n * e.eval σ := by
  have := eval_foldl_add (fun _ : Nat => e) (List.range n) (.ofInt 0) σ
  simp only [nFoldAdd]
  rw [this]
  simp [eval_ofInt, List.map_const, List.sum_replicate, nsmul_eq_mul]

/-! ## Structural lemmas about the pipeline -/

theorem add_gened_constraints_vars (ctx : ModelBuilderContext) :
    (add_gened_constraints ctx).vars = ctx.vars := by
  cases h : ctx.catalog <;> simp [add_gened_constraints, h]

theorem add_gened_constraints_courses (ctx : ModelBuilderContext) :
    (add_gened_constraints ctx).courses = ctx.courses := by
  cases h : ctx.catalog <;> simp [add_gened_constraints, h]

theorem add_gened_constraints_numSemesters (ctx : ModelBuilderContext) :
    (add_gened_constraints ctx).numSemesters = ctx.numSemesters := by
  cases h : ctx.catalog <;> simp [add_gened_constraints, h]

theorem add_gened_constraints_catalog (ctx : ModelBuilderContext) :
    (add_gened_constraints ctx).catalog = ctx.catalog := by
  cases h : ctx.catalog <;> simp [add_gened_constraints, h]

theorem add_gened_constraints_minCredits (ctx : ModelBuilderContext) :
    (add_gened_constraints ctx).minCredits = ctx.minCredits := by
  cases h : ctx.catalog <;> simp [add_gened_constraints, h]

/-- Every field of the context except the model survives the sem, prereq,
GenEd and floor stages; the base stage also sets `vars`. -/
theorem pipelineSem_fields (ctx : ModelBuilderContext) :
    (pipelineSem ctx).vars = ctx.vars ∧ (pipelineSem ctx).courses = ctx.courses ∧
    (pipelineSem ctx).numSemesters = ctx.numSemesters ∧
    (pipelineSem ctx).catalog = ctx.catalog ∧
    (pipelineSem ctx).minCredits = ctx.minCredits ∧
    (pipelineSem ctx).prereqsOn = ctx.prereqsOn ∧
    (pipelineSem ctx).genedsOn = ctx.genedsOn ∧
    (pipelineSem ctx).prereqEdges = ctx.prereqEdges ∧
    (pipelineSem ctx).maxCreditsPerSemester = ctx.maxCreditsPerSemester := by
  unfold pipelineSem
  split <;> exact ⟨rfl, rfl, rfl, rfl, rfl, rfl, rfl, rfl, rfl⟩

theorem pipelinePrereq_fields (ctx : ModelBuilderContext) :
    (pipelinePrereq ctx).vars = ctx.vars ∧ (pipelinePrereq ctx).courses = ctx.courses ∧
    (pipelinePrereq ctx).numSemesters = ctx.numSemesters ∧
    (pipelinePrereq ctx).catalog = ctx.catalog ∧
    (pipelinePrereq ctx).minCredits = ctx.minCredits ∧
    (pipelinePrereq ctx).genedsOn = ctx.genedsOn := by
  unfold pipelinePrereq
  split <;> exact ⟨rfl, rfl, rfl, rfl, rfl, rfl⟩

theorem pipelineGened_fields (ctx : ModelBuilderContext) :
    (pipelineGened ctx).vars = ctx.vars ∧ (pipelineGened ctx).courses = ctx.courses ∧
    (pipelineGened ctx).numSemesters = ctx.numSemesters ∧
    (pipelineGened ctx).catalog = ctx.catalog ∧
    (pipelineGened ctx).minCredits = ctx.minCredits := by
  unfold pipelineGened
  split
  · exact ⟨add_gened_constraints_vars ctx, add_gened_constraints_courses ctx,
      add_gened_constraints_numSemesters ctx, add_gened_constraints_catalog ctx,
      add_gened_constraints_minCredits ctx⟩
  · exact ⟨rfl, rfl, rfl, rfl, rfl⟩

theorem pipelineFloor_vars (ctx : ModelBuilderContext) :
    (pipelineFloor ctx).vars = ctx.vars ∧ (pipelineFloor ctx).courses = ctx.courses := by
  unfold pipelineFloor
  split <;> exact ⟨rfl, rfl⟩

theorem build_model_pipeline_vars (ctx : ModelBuilderContext) :
    (build_model_pipeline ctx).vars =
      (allocateVars ctx.model ctx.courses.length ctx.numSemesters).2 := by
  simp only [build_model_pipeline]
  rw [(pipelineFloor_vars _).1, (pipelineGened_fields _).1, (pipelinePrereq_fields _).1,
    (pipelineSem_fields _).1]
  rfl

theorem build_model_pipeline_courses (ctx : ModelBuilderContext) :
    (build_model_pipeline ctx).courses = ctx.courses := by
  simp only [build_model_pipeline]
  rw [(pipelineFloor_vars _).2, (pipelineGened_fields _).2.1, (pipelinePrereq_fields _).2.1,
    (pipelineSem_fields _).2.1]
  rfl

theorem allocate_foldl_doms (l : List Nat) (m : Model) :
    (l.foldl (fun m _ => (m.newBoolVar).2) m).doms =
      m.doms ++ List.replicate l.length [((0 : Int), (1 : Int))] := by
  induction l generalizing m with
  | nil => simp
  | cons x xs ih =>
    rw [List.foldl_cons, ih]
    simp [Model.newBoolVar, Model.newVar, List.append_assoc, List.singleton_append,
      List.replicate_succ]

theorem allocate_foldl_constrs (l : List Nat) (m : Model) :
    (l.foldl (fun m _ => (m.newBoolVar).2) m).constrs = m.constrs := by
  induction l generalizing m with
  | nil => simp
  | cons x xs ih =>
    rw [List.foldl_cons, ih]
    simp [Model.newBoolVar, Model.newVar]

theorem allocateVars_doms (m : Model) (nc ns : Nat) :
    (allocateVars m nc ns).1.doms =
      m.doms ++ List.replicate (nc * ns) [((0 : Int), (1 : Int))] := by
  simp [allocateVars, allocate_foldl_doms]

theorem allocateVars_constrs (m : Model) (nc ns : Nat) :
    (allocateVars m nc ns).1.constrs = m.constrs := by
  simp [allocateVars, allocate_foldl_constrs]

theorem allocateVars_varAt (m : Model) (nc ns i s : Nat) (hi : i < nc) (hs : s < ns) :
    varAt (allocateVars m nc ns).2 i s = m.doms.length + (i * ns + s) := by
  simp only [allocateVars, varAt]
  have houter : (List.map
      (fun i => List.map (fun s => m.doms.length + i * ns + s) (List.range ns))
      (List.range nc)).getD i [] =
      List.map (fun s => m.doms.length + i * ns + s) (List.range ns) := by
    rw [List.getD_eq_getElem?_getD, List.getElem?_map, List.getElem?_range hi]
    rfl
  rw [houter, List.getD_eq_getElem?_getD, List.getElem?_map, List.getElem?_range hs]
  simp [Nat.add_assoc]

theorem decision_index_lt (i s nc ns : Nat) (hi : i < nc) (hs : s < ns) :
    i * ns + s < nc * ns := by
  calc i * ns + s < i * ns + ns := by omega
    _ = (i + 1) * ns := by ring
    _ ≤ nc * ns := Nat.mul_le_mul_right ns hi

theorem modelExt_appendConstrs (m : Model) (cs : List Constr) :
    ModelExt m { m with constrs := m.constrs ++ cs } :=
  ⟨⟨[], by simp⟩, ⟨cs, rfl⟩⟩

theorem modelExt_pipelineSem (ctx : ModelBuilderContext) :
    ModelExt ctx.model (pipelineSem ctx).model := by
  unfold pipelineSem
  split
  · exact modelExt_appendConstrs _ _
  · exact modelExt_refl _

theorem modelExt_pipelinePrereq (ctx : ModelBuilderContext) :
    ModelExt ctx.model (pipelinePrereq ctx).model := by
  unfold pipelinePrereq
  split
  · exact modelExt_appendConstrs _ _
  · exact modelExt_refl _

theorem modelExt_pipelineGened (ctx : ModelBuilderContext) :
    ModelExt ctx.model (pipelineGened ctx).model := by
  unfold pipelineGened
  split
  · exact modelExt_add_gened_constraints _
  · exact modelExt_refl _

theorem modelExt_pipelineFloor (ctx : ModelBuilderContext) :
    ModelExt ctx.model (pipelineFloor ctx).model := by
  unfold pipelineFloor
  split
  · exact modelExt_addGe _ _ _
  · exact modelExt_refl _

theorem build_model_pipeline_modelExt (ctx : ModelBuilderContext) :
    ModelExt (allocateVars ctx.model ctx.courses.length ctx.numSemesters).1
      (build_model_pipeline ctx).model := by
  simp only [build_model_pipeline]
  refine modelExt_trans ?_ (modelExt_pipelineFloor _)
  refine modelExt_trans ?_ (modelExt_pipelineGened _)
  refine modelExt_trans ?_ (modelExt_pipelinePrereq _)
  refine modelExt_trans ?_ (modelExt_pipelineSem _)
  exact modelExt_appendConstrs _ _

/-- The chained fields of the pre-floor pipeline prefix. -/
theorem pipeline_prefix_fields (ctx : ModelBuilderContext) :
    (pipelinePrereq (pipelineSem (pipelineBase ctx))).minCredits = ctx.minCredits ∧
    (pipelinePrereq (pipelineSem (pipelineBase ctx))).courses = ctx.courses ∧
    (pipelinePrereq (pipelineSem (pipelineBase ctx))).vars =
      (allocateVars ctx.model ctx.courses.length ctx.numSemesters).2 ∧
    (pipelinePrereq (pipelineSem (pipelineBase ctx))).numSemesters = ctx.numSemesters := by
  refine ⟨?_, ?_, ?_, ?_⟩
  · rw [(pipelinePrereq_fields _).2.2.2.2.1, (pipelineSem_fields _).2.2.2.2.1]
    rfl
  · rw [(pipelinePrereq_fields _).2.1, (pipelineSem_fields _).2.1]
    rfl
  · rw [(pipelinePrereq_fields _).1, (pipelineSem_fields _).1]
    rfl
  · rw [(pipelinePrereq_fields _).2.2.1, (pipelineSem_fields _).2.2.1]
    rfl

/-- The chained fields through the GenEd stage as well. -/
theorem pipeline_prefix4_fields (ctx : ModelBuilderContext) :
    (pipelineGened (pipelinePrereq (pipelineSem (pipelineBase ctx)))).minCredits =
      ctx.minCredits ∧
    (pipelineGened (pipelinePrereq (pipelineSem (pipelineBase ctx)))).courses = ctx.courses ∧
    (pipelineGened (pipelinePrereq (pipelineSem (pipelineBase ctx)))).vars =
      (allocateVars ctx.model ctx.courses.length ctx.numSemesters).2 ∧
    (pipelineGened (pipelinePrereq (pipelineSem (pipelineBase ctx)))).numSemesters =
      ctx.numSemesters := by
  obtain ⟨h1, h2, h3, h4⟩ := pipeline_prefix_fields ctx
  exact ⟨by rw [(pipelineGened_fields _).2.2.2.2, h1],
    by rw [(pipelineGened_fields _).2.1, h2],
    by rw [(pipelineGened_fields _).1, h3],
    by rw [(pipelineGened_fields _).2.2.1, h4]⟩

/-- With the floor set, the pipeline's model contains the total-credit
floor constraint. -/
theorem build_model_pipeline_floor_mem (ctx : ModelBuilderContext) (mc : Int)
    (h : ctx.minCredits = some mc) :
    Constr.ge
      (total_credits_expr (flatCoursesOf ctx.courses)
        (allocateVars ctx.model ctx.courses.length ctx.numSemesters).2 ctx.numSemesters)
      (.ofInt mc) ∈ (build_model_pipeline ctx).model.constrs := by
  obtain ⟨h1, h2, h3, h4⟩ := pipeline_prefix4_fields ctx
  simp only [build_model_pipeline, pipelineFloor, h1, h]
  rw [h2, h3, h4]
  simp [Model.addGe]

/-- The decision matrix of a pipeline run started from an empty model:
`vars[i][s]` is the boolean variable `i * ns + s` of the final model. -/
theorem build_model_pipeline_decision (ctx : ModelBuilderContext)
    (hempty : ctx.model = Model.empty) (i s : Nat)
    (hi : i < ctx.courses.length) (hs : s < ctx.numSemesters) :
    varAt (build_model_pipeline ctx).vars i s = i * ctx.numSemesters + s ∧
    i * ctx.numSemesters + s < (build_model_pipeline ctx).model.doms.length ∧
    (build_model_pipeline ctx).model.doms.getD (i * ctx.numSemesters + s) [] =
      [((0 : Int), (1 : Int))] := by
  have hidx := decision_index_lt i s ctx.courses.length ctx.numSemesters hi hs
  have hvar : varAt (build_model_pipeline ctx).vars i s = i * ctx.numSemesters + s := by
    rw [build_model_pipeline_vars,
      allocateVars_varAt ctx.model ctx.courses.length ctx.numSemesters i s hi hs, hempty]
    simp [Model.empty]
  have hbase : (allocateVars ctx.model ctx.courses.length ctx.numSemesters).1.doms =
      List.replicate (ctx.courses.length * ctx.numSemesters) [((0 : Int), (1 : Int))] := by
    rw [allocateVars_doms, hempty]
    simp [Model.empty]
  have hext := build_model_pipeline_modelExt ctx
  have hlen : i * ctx.numSemesters + s <
      (allocateVars ctx.model ctx.courses.length ctx.numSemesters).1.doms.length := by
    rw [hbase, List.length_replicate]
    exact hidx
  refine ⟨hvar, lt_of_lt_of_le hlen (doms_length_le_of_modelExt hext), ?_⟩
  rw [doms_getD_of_modelExt hext hlen, hbase, List.getD_eq_getElem?_getD]
  simp [List.getElem?_replicate, hidx]

theorem modelExt_addSemesterCreditVars (m : Model) (flat : List (Course × Int))
    (vars : List (List Nat)) (ns : Nat) (maxC : Int) :
    ModelExt m (addSemesterCreditVars m flat vars ns maxC).1 := by
  refine modelExt_foldl Prod.fst _ ?_ (List.range ns) (m, [])
  intro b s
  exact modelExt_trans (modelExt_newVar _ _) (modelExt_addEq _ _ _)

theorem modelExt_addDeviationVars (m : Model) (cvs : List Nat) (mean bound : Int) :
    ModelExt m (addDeviationVars m cvs mean bound).1 := by
  refine modelExt_foldl Prod.fst _ ?_ cvs (m, [])
  intro b cv
  exact modelExt_trans (modelExt_newVar _ _)
    (modelExt_trans (modelExt_addEq _ _ _)
      (modelExt_trans (modelExt_newVar _ _)
        (modelExt_trans (modelExt_addGe _ _ _) (modelExt_addGe _ _ _))))

/-- The full stage-2 model extends the stage-2 pipeline model. -/
theorem modelExt_stage2FullModel (data : ProblemData) (sched : Schedule)
    (maxCredits mc : Int) :
    ModelExt (stage2Ctx data sched maxCredits mc).model
      (stage2FullModel data sched maxCredits mc) := by
  have h1 := modelExt_addSemesterCreditVars (stage2Ctx data sched maxCredits mc).model
    (flatCoursesOf (stage2Ctx data sched maxCredits mc).courses)
    (stage2Ctx data sched maxCredits mc).vars sched.courses.length maxCredits
  have h2 := modelExt_addDeviationVars
    (addSemesterCreditVars (stage2Ctx data sched maxCredits mc).model
      (flatCoursesOf (stage2Ctx data sched maxCredits mc).courses)
      (stage2Ctx data sched maxCredits mc).vars sched.courses.length maxCredits).1
    (addSemesterCreditVars (stage2Ctx data sched maxCredits mc).model
      (flatCoursesOf (stage2Ctx data sched maxCredits mc).courses)
      (stage2Ctx data sched maxCredits mc).vars sched.courses.length maxCredits).2
    (mc.tdiv (sched.courses.length : Int))
    (maxCredits * ((flatCoursesOf (stage2Ctx data sched maxCredits mc).courses).length : Int))
  simp only [stage2FullModel]
  exact modelExt_trans h1 (modelExt_trans h2 (modelExt_minimize _ _))

/-- A left fold of conditional additions as a sum. -/
theorem foldl_if_add {α : Type} (P : α → Prop) [DecidablePred P] (c : Int)
    (l : List α) (t : Int) :
    l.foldl (fun t x => if P x then t + c else t) t =
      t + (l.map (fun x => if P x then c else 0)).sum := by
  induction l generalizing t with
  | nil => simp
  | cons x xs ih =>
    simp only [List.foldl_cons, List.map_cons, List.sum_cons]
    by_cases h : P x
    · simp only [h, if_true, ih]
      ring
    · simp only [h, if_false, ih]
      ring

/-- A left fold of additions as a sum. -/
theorem foldl_add_outer {α : Type} (g : α → Int) (l : List α) (t : Int) :
    l.foldl (fun t x => t + g x) t = t + (l.map g).sum := by
  induction l generalizing t with
  | nil => simp
  | cons x xs ih =>
    simp only [List.foldl_cons, List.map_cons, List.sum_cons, ih]
    ring

/-- On 0/1-valued decision variables the stage-1/2 credit extraction is
exactly the value of the credit-weighted total expression. -/
theorem extractMinCredits_eq_eval (flat : List (Course × Int)) (vars : List (List Nat))
    (ns : Nat) (σ : Nat → Int)
    (h : ∀ p ∈ flat.enum, ∀ s < ns, σ (varAt vars p.1 s) = 0 ∨ σ (varAt vars p.1 s) = 1) :
    extractMinCredits flat vars ns σ = (total_credits_expr flat vars ns).eval σ := by
  have hfun : (fun (t : Int) (p : Nat × (Course × Int)) =>
      (List.range ns).foldl (fun t s => if σ (varAt vars p.1 s) = 1 then t + p.2.2 else t) t) =
      fun t p => t + ((List.range ns).map
        (fun s => if σ (varAt vars p.1 s) = 1 then p.2.2 else 0)).sum := by
    funext t p
    exact foldl_if_add _ _ _ _
  rw [extractMinCredits, hfun, foldl_add_outer]
  simp only [LinearExpr.eval, total_credits_expr]
  rw [List.map_flatten, List.sum_flatten]
  simp only [List.map_map, zero_add]
  refine congrArg List.sum (List.map_congr_left ?_)
  intro p hp
  simp only [Function.comp]
  rw [List.map_map]
  refine congrArg List.sum (List.map_congr_left ?_)
  intro s hs
  simp only [Function.comp]
  rcases h p hp s (List.mem_range.mp hs) with h0 | h1
  · simp [h0]
  · simp [h1]

/-- Memberships of the enumeration are bounded by the list length. -/
theorem fst_lt_of_mem_enum {α : Type} {l : List α} {p : Nat × α} (hp : p ∈ l.enum) :
    p.1 < l.length :=
  (List.getElem?_eq_some.mp (List.mem_enum_iff_getElem?.mp hp)).1

/-- A value confined to the boolean domain is 0 or 1. -/
theorem indom_bool_cases {x : Int} (h : InDom [((0 : Int), (1 : Int))] x) :
    x = 0 ∨ x = 1 := by
  rcases h with ⟨q, hq, hq1, hq2⟩
  simp only [List.mem_singleton] at hq
  subst hq
  omega

/-- `codes_to_indices` fails exactly when some referenced code is absent
from the flat course list (the `collect::<Option<_>>` semantics): it never
drops just the absent codes. -/
theorem codes_to_indices_none_iff (courses : List Course) (codes : List CourseCode) :
    codes_to_indices courses codes = none ↔
      ∃ c ∈ codes, code_to_idx courses c = none := by
  induction codes with
  | nil =>
    constructor
    · intro h
      exact Option.noConfusion h
    · rintro ⟨a, ha, _⟩
      cases ha
  | cons c cs ih =>
    simp only [codes_to_indices] at ih ⊢
    rw [List.mapM_cons]
    cases h : code_to_idx courses c with
    | none =>
      constructor
      · intro _
        exact ⟨c, List.mem_cons_self c cs, h⟩
      · intro _
        rfl
    | some i =>
      cases h2 : cs.mapM (code_to_idx courses) with
      | none =>
        constructor
        · intro _
          obtain ⟨a, ha, hna⟩ := ih.mp h2
          exact ⟨a, List.mem_cons_of_mem _ ha, hna⟩
        · intro _
          rfl
      | some l =>
        constructor
        · intro hfalse
          exact Option.noConfusion hfalse
        · rintro ⟨a, ha, hna⟩
          rcases List.mem_cons.mp ha with h3 | h3
          · rw [h3] at hna
            rw [h] at hna
            cases hna
          · have hn := ih.mpr ⟨a, h3, hna⟩
            rw [h2] at hn
            cases hn

/-- A constraint present after the Core loop survives to the final GenEd
model. -/
theorem mem_add_gened_of_mem_core (ctx : ModelBuilderContext) (catalog : Catalog)
    (hcat : ctx.catalog = some catalog) (c : Constr)
    (hc : c ∈ (addCoreConstraints ctx.courses ctx.vars ctx.numSemesters ctx.model
      catalog.geneds).constrs) :
    c ∈ (add_gened_constraints ctx).model.constrs := by
  simp only [add_gened_constraints, hcat]
  exact mem_constrs_of_modelExt
    (modelExt_trans (modelExt_addFoundationAssign _ _ _ _ _)
      (modelExt_trans (modelExt_addFoundationCounts _ _ _ _)
        (modelExt_trans (modelExt_addFoundationPairCaps _ _ _ _ _)
          (modelExt_addSPConstraints _ _ _ _)))) hc

/-! ## Claim theorems -/

/-- Claim C1 (corrected): stage 1 builds its context with prerequisites
and GenEds enabled but the semester-credit-limit group DISABLED (the
source passes `(true, true, false)`), and no floor; stage 2 enables all
three groups and sets the floor, so it differs from stage 1 in the
semester-limit toggle as well as in the floor. -/
theorem c1_theorem (data : ProblemData) (sched : Schedule) (maxCredits mc : Int) :
    (stage1BuilderCtx data sched maxCredits).prereqsOn = true ∧
    (stage1BuilderCtx data sched maxCredits).genedsOn = true ∧
    (stage1BuilderCtx data sched maxCredits).semLimitOn = false ∧
    (stage1BuilderCtx data sched maxCredits).minCredits = none ∧
    stage2BuilderCtx data sched maxCredits mc =
      set_min_credits
        { stage1BuilderCtx data sched maxCredits with semLimitOn := true } mc :=
  ⟨rfl, rfl, rfl, rfl, rfl⟩

/-- Claim C1 counterexample: on a concrete instance the stage-1 context is
NOT built with all three constraint groups enabled, and the stage-2
context is NOT the stage-1 context with only the floor changed. -/
theorem c1_counterexample :
    ¬ (stage1BuilderCtx dataA schedTwo 10 =
        new_with_toggles dataA schedTwo 10 true true true ∧
      stage2BuilderCtx dataA schedTwo 10 6 =
        set_min_credits (stage1BuilderCtx dataA schedTwo 10) 6) := by
  decide

/-- Claim C8 (confirmed): with no GenEd catalog reference,
`add_gened_constraints` returns the context unchanged, and the pipeline
produces the same model as with the GenEd toggle off: the feasible region
is defined by the other constraint groups alone. -/
theorem c8_theorem (ctx : ModelBuilderContext) (h : ctx.catalog = none) :
    add_gened_constraints ctx = ctx ∧
    (build_model_pipeline ctx).model =
      (build_model_pipeline { ctx with genedsOn := false }).model := by
  refine ⟨add_gened_constraints_none h, ?_⟩
  have hged : ∀ c : ModelBuilderContext, c.catalog = none → pipelineGened c = c := by
    intro c hc
    unfold pipelineGened
    split
    · exact add_gened_constraints_none hc
    · rfl
  simp only [build_model_pipeline]
  rw [hged, hged]
  · cases hsl : ctx.semLimitOn <;> cases hp : ctx.prereqsOn <;>
      cases hmc : ctx.minCredits <;>
      simp [pipelineBase, pipelineSem, pipelinePrereq, pipelineFloor, hsl, hp, hmc]
  · rw [(pipelinePrereq_fields _).2.2.2.1, (pipelineSem_fields _).2.2.2.1]
    exact h
  · rw [(pipelinePrereq_fields _).2.2.2.1, (pipelineSem_fields _).2.2.2.1]
    exact h

/-- Claim C8 witness: a concrete catalog-less context. -/
theorem c8_witness :
    (new_with_toggles ⟨[⟨"A", 6, true⟩], none, []⟩ schedOne 10 true true true).catalog
        = none ∧
    (add_gened_constraints
        (new_with_toggles ⟨[⟨"A", 6, true⟩], none, []⟩ schedOne 10 true true true) =
      new_with_toggles ⟨[⟨"A", 6, true⟩], none, []⟩ schedOne 10 true true true ∧
    (build_model_pipeline
        (new_with_toggles ⟨[⟨"A", 6, true⟩], none, []⟩ schedOne 10 true true true)).model =
      (build_model_pipeline
        { new_with_toggles ⟨[⟨"A", 6, true⟩], none, []⟩ schedOne 10 true true true with
            genedsOn := false }).model) :=
  ⟨rfl, c8_theorem _ rfl⟩

/-- Claim C3 (confirmed): the driver leaves the schedule exactly as it was
on every path that does not end in a stage-2 `Optimal`/`Feasible` status,
and on success it replaces the semester lists in one assignment with the
stage-2 extraction. -/
theorem c3_theorem (data : ProblemData) (sched : Schedule) (maxCredits : Int)
    (solve : Model → Option (Nat → Int)) :
    ((two_stage_lex_schedule data sched maxCredits solve).2.1 ≠ .ok () →
      (two_stage_lex_schedule data sched maxCredits solve).1 = sched) ∧
    (∀ σ σ2, solve (stage1Model data sched maxCredits) = some σ →
      solve (stage2FullModel data sched maxCredits
        (minCreditsOf data sched maxCredits σ)) = some σ2 →
      (two_stage_lex_schedule data sched maxCredits solve).2.1 = .ok () ∧
      (two_stage_lex_schedule data sched maxCredits solve).1 =
        { sched with
            courses := extractSchedule
              (flatCoursesOf (stage2Ctx data sched maxCredits
                (minCreditsOf data sched maxCredits σ)).courses)
              (stage2Ctx data sched maxCredits
                (minCreditsOf data sched maxCredits σ)).vars
              sched.courses.length σ2 }) := by
  constructor
  · intro hne
    cases h1 : solve (stage1Model data sched maxCredits) with
    | none => simp only [two_stage_lex_schedule, h1]
    | some σ =>
      cases h2 : solve (stage2FullModel data sched maxCredits
          (minCreditsOf data sched maxCredits σ)) with
      | none =>
        simp only [two_stage_lex_schedule, h1, minCreditsOf] at hne ⊢
        simp only [minCreditsOf] at h2
        simp only [h2]
      | some σ2 =>
        exfalso
        apply hne
        simp only [two_stage_lex_schedule, h1, minCreditsOf] at h2 ⊢
        simp only [h2]
  · intro σ σ2 h1 h2
    simp only [minCreditsOf] at h2
    simp only [two_stage_lex_schedule, h1, h2, minCreditsOf]
    exact ⟨trivial, trivial⟩

/-- Claim C3 witness: a concrete run that succeeds and commits the
extracted schedule. -/
theorem c3_witness :
    (two_stage_lex_schedule dataA schedTwo 10 oracleA).2.1 = .ok () ∧
    (two_stage_lex_schedule dataA schedTwo 10 oracleA).1 =
      { schedTwo with
          courses := extractSchedule
            (flatCoursesOf (stage2Ctx dataA schedTwo 10
              (minCreditsOf dataA schedTwo 10 sigma1)).courses)
            (stage2Ctx dataA schedTwo 10
              (minCreditsOf dataA schedTwo 10 sigma1)).vars
            schedTwo.courses.length sigma2 } :=
  (c3_theorem dataA schedTwo 10 oracleA).2 sigma1 sigma2 rfl rfl

/-- Claim C10 (confirmed): after a successful stage-1 solve the driver
always builds and solves the four toggle-sweep variants — their statuses
appear in the diagnostic log in the fixed order (prereqs off, geneds off,
semester-limit off, all on) — and the returned result and committed
schedule do not depend on the sweep's outcomes: any backend agreeing on
the stage-1 and stage-2 models yields the same result. -/
theorem c10_theorem (data : ProblemData) (sched : Schedule) (maxCredits : Int)
    (solve : Model → Option (Nat → Int)) (σ : Nat → Int)
    (h1 : solve (stage1Model data sched maxCredits) = some σ) :
    ((two_stage_lex_schedule data sched maxCredits solve).2.2 =
      diagSweep data sched maxCredits (some (minCreditsOf data sched maxCredits σ)) solve ∧
     diagSweep data sched maxCredits (some (minCreditsOf data sched maxCredits σ)) solve =
      [⟨false, true, true, (solve (diagModel data sched maxCredits
          (some (minCreditsOf data sched maxCredits σ)) false true true)).isSome⟩,
       ⟨true, false, true, (solve (diagModel data sched maxCredits
          (some (minCreditsOf data sched maxCredits σ)) true false true)).isSome⟩,
       ⟨true, true, false, (solve (diagModel data sched maxCredits
          (some (minCreditsOf data sched maxCredits σ)) true true false)).isSome⟩,
       ⟨true, true, true, (solve (diagModel data sched maxCredits
          (some (minCreditsOf data sched maxCredits σ)) true true true)).isSome⟩]) ∧
    (∀ solve2, solve2 (stage1Model data sched maxCredits) = some σ →
      solve2 (stage2FullModel data sched maxCredits (minCreditsOf data sched maxCredits σ)) =
        solve (stage2FullModel data sched maxCredits (minCreditsOf data sched maxCredits σ)) →
      (two_stage_lex_schedule data sched maxCredits solve2).1 =
        (two_stage_lex_schedule data sched maxCredits solve).1 ∧
      (two_stage_lex_schedule data sched maxCredits solve2).2.1 =
        (two_stage_lex_schedule data sched maxCredits solve).2.1) := by
  refine ⟨⟨?_, ?_⟩, ?_⟩
  · cases h2 : solve (stage2FullModel data sched maxCredits
        (minCreditsOf data sched maxCredits σ)) with
    | none =>
      simp only [minCreditsOf] at h2
      simp only [two_stage_lex_schedule, h1, h2, minCreditsOf]
    | some σ2 =>
      simp only [minCreditsOf] at h2
      simp only [two_stage_lex_schedule, h1, h2, minCreditsOf]
  · simp only [diagSweep, List.map]
  · intro solve2 h1b h2eq
    cases h2 : solve (stage2FullModel data sched maxCredits
        (minCreditsOf data sched maxCredits σ)) with
    | none =>
      rw [h2] at h2eq
      simp only [minCreditsOf] at h2 h2eq
      simp only [two_stage_lex_schedule, h1, h1b, h2, h2eq, minCreditsOf]
      exact ⟨trivial, trivial⟩
    | some σ2 =>
      rw [h2] at h2eq
      simp only [minCreditsOf] at h2 h2eq
      simp only [two_stage_lex_schedule, h1, h1b, h2, h2eq, minCreditsOf]
      exact ⟨trivial, trivial⟩

/-- Claim C10 witness: a backend that answers every model with the
all-zero assignment; on the success path the log is exactly the four
sweep entries and the result is backend-agreement invariant. -/
theorem c10_witness :
    oracleZero (stage1Model dataA schedTwo 10) = some (fun _ => 0) ∧
    (((two_stage_lex_schedule dataA schedTwo 10 oracleZero).2.2 =
      diagSweep dataA schedTwo 10
        (some (minCreditsOf dataA schedTwo 10 (fun _ => 0))) oracleZero ∧
     diagSweep dataA schedTwo 10
        (some (minCreditsOf dataA schedTwo 10 (fun _ => 0))) oracleZero =
      [⟨false, true, true, (oracleZero (diagModel dataA schedTwo 10
          (some (minCreditsOf dataA schedTwo 10 (fun _ => 0))) false true true)).isSome⟩,
       ⟨true, false, true, (oracleZero (diagModel dataA schedTwo 10
          (some (minCreditsOf dataA schedTwo 10 (fun _ => 0))) true false true)).isSome⟩,
       ⟨true, true, false, (oracleZero (diagModel dataA schedTwo 10
          (some (minCreditsOf dataA schedTwo 10 (fun _ => 0))) true true false)).isSome⟩,
       ⟨true, true, true, (oracleZero (diagModel dataA schedTwo 10
          (some (minCreditsOf dataA schedTwo 10 (fun _ => 0))) true true true)).isSome⟩]) ∧
    (∀ solve2, solve2 (stage1Model dataA schedTwo 10) = some (fun _ => 0) →
      solve2 (stage2FullModel dataA schedTwo 10
          (minCreditsOf dataA schedTwo 10 (fun _ => 0))) =
        oracleZero (stage2FullModel dataA schedTwo 10
          (minCreditsOf dataA schedTwo 10 (fun _ => 0))) →
      (two_stage_lex_schedule dataA schedTwo 10 solve2).1 =
        (two_stage_lex_schedule dataA schedTwo 10 oracleZero).1 ∧
      (two_stage_lex_schedule dataA schedTwo 10 solve2).2.1 =
        (two_stage_lex_schedule dataA schedTwo 10 oracleZero).2.1)) :=
  ⟨rfl, c10_theorem dataA schedTwo 10 oracleZero (fun _ => 0) rfl⟩

/-- Claim C2 counterexample: a successful run of the driver on a concrete
instance (course A: 6 credits, forced in-schedule by a Core `Set`;
elective E: 3 credits; two semesters, cap 10).  The backend answers stage
1 with the (unique) optimal 6-credit solution, so `min_credits = 6`, and
answers stage 2 with a feasible 9-credit balanced solution — the stage-2
model only floors total credits at `min_credits`, it does not cap them —
so the committed schedule carries 9 ≠ 6 credits.  (The seventh conjunct
checks that 6 really is the stage-1 optimum over all decision
assignments.) -/
theorem c2_counterexample :
    (two_stage_lex_schedule dataA schedTwo 10 oracleA).2.1 = .ok () ∧
    Model.Feasible (stage1Model dataA schedTwo 10) sigma1 ∧
    Model.Feasible (stage2FullModel dataA schedTwo 10 6) sigma2 ∧
    minCreditsOf dataA schedTwo 10 sigma1 = 6 ∧
    stage2CommittedCredits dataA schedTwo 10 6 sigma2 = 9 ∧
    scheduleCredits dataA.courses (two_stage_lex_schedule dataA schedTwo 10 oracleA).1 = 9 ∧
    (∀ a0 ∈ ([0, 1] : List Int), ∀ a1 ∈ ([0, 1] : List Int),
     ∀ e0 ∈ ([0, 1] : List Int), ∀ e1 ∈ ([0, 1] : List Int),
      Model.Feasible (stage1Model dataA schedTwo 10)
          (fun v => ([a0, a1, e0, e1] : List Int).getD v 0) →
        minCreditsOf dataA schedTwo 10
          (fun v => ([a0, a1, e0, e1] : List Int).getD v 0) ≥ 6) ∧
    ¬ ((two_stage_lex_schedule dataA schedTwo 10 oracleA).2.1 = .ok () →
        scheduleCredits dataA.courses (two_stage_lex_schedule dataA schedTwo 10 oracleA).1 =
          minCreditsOf dataA schedTwo 10 sigma1) := by decide

/-- Claim C2 (amended): for any feasible stage-2 solution the committed
total credits are at least the `min_credits` floor — the floor constraint
only bounds the total from below, never from above. -/
theorem c2_theorem (data : ProblemData) (sched : Schedule) (maxCredits mc : Int)
    (σ2 : Nat → Int)
    (hfeas : (stage2FullModel data sched maxCredits mc).Feasible σ2) :
    stage2CommittedCredits data sched maxCredits mc σ2 ≥ mc := by
  have hmc : (stage2BuilderCtx data sched maxCredits mc).minCredits = some mc := rfl
  have hfm := build_model_pipeline_floor_mem (stage2BuilderCtx data sched maxCredits mc) mc hmc
  have hext2 := modelExt_stage2FullModel data sched maxCredits mc
  have hmem : Constr.ge
      (total_credits_expr (flatCoursesOf (stage2BuilderCtx data sched maxCredits mc).courses)
        (allocateVars (stage2BuilderCtx data sched maxCredits mc).model
          (stage2BuilderCtx data sched maxCredits mc).courses.length
          (stage2BuilderCtx data sched maxCredits mc).numSemesters).2
        (stage2BuilderCtx data sched maxCredits mc).numSemesters)
      (.ofInt mc) ∈ (stage2FullModel data sched maxCredits mc).constrs :=
    mem_constrs_of_modelExt hext2 hfm
  have hholds : (total_credits_expr
      (flatCoursesOf (stage2BuilderCtx data sched maxCredits mc).courses)
      (allocateVars (stage2BuilderCtx data sched maxCredits mc).model
        (stage2BuilderCtx data sched maxCredits mc).courses.length
        (stage2BuilderCtx data sched maxCredits mc).numSemesters).2
      (stage2BuilderCtx data sched maxCredits mc).numSemesters).eval σ2 ≥
      (LinearExpr.ofInt mc).eval σ2 := hfeas.2 _ hmem
  rw [eval_ofInt] at hholds
  have hzeroone : ∀ p ∈ (flatCoursesOf (stage2BuilderCtx data sched maxCredits mc).courses).enum,
      ∀ s < (stage2BuilderCtx data sched maxCredits mc).numSemesters,
      σ2 (varAt (allocateVars (stage2BuilderCtx data sched maxCredits mc).model
        (stage2BuilderCtx data sched maxCredits mc).courses.length
        (stage2BuilderCtx data sched maxCredits mc).numSemesters).2 p.1 s) = 0 ∨
      σ2 (varAt (allocateVars (stage2BuilderCtx data sched maxCredits mc).model
        (stage2BuilderCtx data sched maxCredits mc).courses.length
        (stage2BuilderCtx data sched maxCredits mc).numSemesters).2 p.1 s) = 1 := by
    intro p hp s hs
    have hp1 : p.1 < (stage2BuilderCtx data sched maxCredits mc).courses.length := by
      have := fst_lt_of_mem_enum hp
      simpa [flatCoursesOf] using this
    have hdec := build_model_pipeline_decision (stage2BuilderCtx data sched maxCredits mc)
      rfl p.1 s hp1 hs
    rw [build_model_pipeline_vars] at hdec
    have hlt : p.1 * (stage2BuilderCtx data sched maxCredits mc).numSemesters + s <
        (stage2FullModel data sched maxCredits mc).doms.length :=
      lt_of_lt_of_le hdec.2.1 (doms_length_le_of_modelExt hext2)
    have hdom : (stage2FullModel data sched maxCredits mc).doms.getD
        (p.1 * (stage2BuilderCtx data sched maxCredits mc).numSemesters + s) [] =
        [((0 : Int), (1 : Int))] := by
      rw [doms_getD_of_modelExt hext2 hdec.2.1]
      exact hdec.2.2
    have hin := hfeas.1 _ hlt
    rw [hdom] at hin
    rw [hdec.1]
    exact indom_bool_cases hin
  have hcommit : stage2CommittedCredits data sched maxCredits mc σ2 =
      (total_credits_expr
        (flatCoursesOf (stage2BuilderCtx data sched maxCredits mc).courses)
        (allocateVars (stage2BuilderCtx data sched maxCredits mc).model
          (stage2BuilderCtx data sched maxCredits mc).courses.length
          (stage2BuilderCtx data sched maxCredits mc).numSemesters).2
        (stage2BuilderCtx data sched maxCredits mc).numSemesters).eval σ2 := by
    have h1 : (stage2Ctx data sched maxCredits mc).courses =
        (stage2BuilderCtx data sched maxCredits mc).courses :=
      build_model_pipeline_courses (stage2BuilderCtx data sched maxCredits mc)
    have h2 : (stage2Ctx data sched maxCredits mc).vars =
        (allocateVars (stage2BuilderCtx data sched maxCredits mc).model
          (stage2BuilderCtx data sched maxCredits mc).courses.length
          (stage2BuilderCtx data sched maxCredits mc).numSemesters).2 :=
      build_model_pipeline_vars (stage2BuilderCtx data sched maxCredits mc)
    show extractMinCredits (flatCoursesOf (stage2Ctx data sched maxCredits mc).courses)
        (stage2Ctx data sched maxCredits mc).vars sched.courses.length σ2 = _
    rw [h1, h2]
    exact extractMinCredits_eq_eval _ _ _ _ hzeroone
  rw [hcommit]
  exact hholds

/-- Claim C2 amended-claim witness: the concrete feasible 9-credit stage-2
solution satisfies the floor 6. -/
theorem c2_witness :
    (stage2FullModel dataA schedTwo 10 6).Feasible sigma2 ∧
    stage2CommittedCredits dataA schedTwo 10 6 sigma2 ≥ 6 :=
  ⟨by decide, c2_theorem dataA schedTwo 10 6 sigma2 (by decide)⟩

/-- Claim C4 counterexample: a Core `Set(["X", "MISS"])` where only X
exists.  The claim demands the constraint still be generated over the
remaining present code X, but `codes_to_indices` returns `None` for the
whole list and the requirement is skipped in its entirety: the GenEd pass
adds no constraint at all, so X is not forced in-schedule. -/
theorem c4_counterexample :
    code_to_idx dataMiss.courses "X" = some 0 ∧
    code_to_idx dataMiss.courses "MISS" = none ∧
    codes_to_indices dataMiss.courses ["X", "MISS"] = none ∧
    ¬ (Constr.ge (course_in_schedule (ctxOf dataMiss schedTwo 10).vars 2 0) (.ofInt 1) ∈
        (add_gened_constraints (ctxOf dataMiss schedTwo 10)).model.constrs) ∧
    (add_gened_constraints (ctxOf dataMiss schedTwo 10)).model.constrs =
      (ctxOf dataMiss schedTwo 10).model.constrs := by
  decide

/-- Claim C4 (amended): a requirement whose code list contains any code
absent from the flat course list is skipped in its entirety (the build
still never fails — the skip is silent); a requirement whose codes are all
present generates its constraints.  Shown for the cited
`codes_to_indices` + Core `Set` path: (1) `codes_to_indices` fails exactly
when some code is absent, (2) a `Set` with an absent code contributes
nothing, (3) a fully-present `Set` forces each of its courses
in-schedule. -/
theorem c4_theorem :
    (∀ (courses : List Course) (codes : List CourseCode),
      codes_to_indices courses codes = none ↔
        ∃ c ∈ codes, code_to_idx courses c = none) ∧
    (∀ (courses : List Course) (vars : List (List Nat)) (ns : Nat) (m : Model)
        (codes : List CourseCode),
      codes_to_indices courses codes = none →
        addCoreGened courses vars ns m (.set codes) = m) ∧
    (∀ (ctx : ModelBuilderContext) (catalog : Catalog) (codes : List CourseCode)
        (indices : List Nat),
      ctx.catalog = some catalog →
      GenEd.core (.set codes) ∈ catalog.geneds →
      codes_to_indices ctx.courses codes = some indices →
      ∀ idx ∈ indices,
        Constr.ge (course_in_schedule ctx.vars ctx.numSemesters idx) (.ofInt 1) ∈
          (add_gened_constraints ctx).model.constrs) := by
  refine ⟨codes_to_indices_none_iff, ?_, ?_⟩
  · intro courses vars ns m codes h
    simp only [addCoreGened, h]
  · intro ctx catalog codes indices hcat hmem hs idx hidx
    refine mem_add_gened_of_mem_core ctx catalog hcat _ ?_
    refine foldl_mem_constrs id _ ?_ _ hmem ?_ ctx.model
    · intro b g
      cases g with
      | core req => exact modelExt_addCoreGened _ _ _ b req
      | foundation req => exact modelExt_refl b
      | skillAndPerspective req => exact modelExt_refl b
    · intro b
      show Constr.ge (course_in_schedule ctx.vars ctx.numSemesters idx) (.ofInt 1) ∈
        (addCoreGened ctx.courses ctx.vars ctx.numSemesters b (.set codes)).constrs
      simp only [addCoreGened, hs]
      refine foldl_mem_constrs id _ (fun b a => modelExt_addGe b _ _) _ hidx ?_ b
      intro b2
      simp [Model.addGe]

/-- Claim C4 amended-claim witness: a concrete fully-present Core `Set`
generates its constraint (instance `dataA`), discharging the hypotheses of
the third conjunct. -/
theorem c4_witness :
    ((ctxOf dataA schedTwo 10).catalog = some ⟨[.core (.set ["A"])]⟩ ∧
     GenEd.core (.set ["A"]) ∈ (Catalog.mk [.core (.set ["A"])]).geneds ∧
     codes_to_indices (ctxOf dataA schedTwo 10).courses ["A"] = some [0] ∧
     (0 : Nat) ∈ [0]) ∧
    Constr.ge (course_in_schedule (ctxOf dataA schedTwo 10).vars
        (ctxOf dataA schedTwo 10).numSemesters 0) (.ofInt 1) ∈
      (add_gened_constraints (ctxOf dataA schedTwo 10)).model.constrs :=
  ⟨⟨by decide, by decide, by decide, by decide⟩,
    c4_theorem.2.2 (ctxOf dataA schedTwo 10) ⟨[.core (.set ["A"])]⟩ ["A"] [0]
      (by decide) (by decide) (by decide) 0 (by decide)⟩

/-- `foundation_sets` is the filterMap of the per-Foundation
contributions over the catalog's Foundations. -/
theorem foundation_sets_eq_filterMap (courses : List Course) (geneds : List GenEd) :
    foundation_sets courses geneds =
      (foundationReqsOf geneds).filterMap (foundationContrib courses) := by
  suffices hgen : ∀ (l : List GenEdReq) (acc : List (List Nat)),
      l.foldl (fun acc req =>
        match foundationContrib courses req with
        | some s => acc ++ [s]
        | none => acc) acc = acc ++ l.filterMap (foundationContrib courses) by
    simpa [foundation_sets] using hgen (foundationReqsOf geneds) []
  intro l
  induction l with
  | nil => simp
  | cons r rs ih =>
    intro acc
    simp only [List.foldl_cons, List.filterMap_cons]
    cases h : foundationContrib courses r with
    | none => simp [h, ih]
    | some s => simp [h, ih]

/-- When every element maps to `some`, `filterMap` is a plain `map`. -/
theorem filterMap_eq_map_of_isSome {α β : Type} (f : α → Option β) (d : β)
    (l : List α) (h : ∀ a ∈ l, (f a).isSome) :
    l.filterMap f = l.map (fun a => (f a).getD d) := by
  induction l with
  | nil => simp
  | cons x xs ih =>
    have hx := h x (List.mem_cons_self x xs)
    obtain ⟨y, hy⟩ := Option.isSome_iff_exists.mp hx
    simp only [List.filterMap_cons, List.map_cons, hy, Option.getD_some]
    rw [ih (fun a ha => h a (List.mem_cons_of_mem _ ha))]

/-- Each entry of `foundation_reqs` yields its coverage constraint. -/
theorem mem_addFoundationCounts (vars : List (List Nat)) (ns : Nat) (m : Model)
    (freqs : List (List Nat × Int)) (fr : List Nat × Int) (hfr : fr ∈ freqs) :
    Constr.ge (sumInSched vars ns fr.1) (.ofInt fr.2) ∈
      (addFoundationCounts vars ns m freqs).constrs := by
  refine foldl_mem_constrs id _ (fun b a => modelExt_addGe b _ _) _ hfr ?_ m
  intro b
  simp [Model.addGe]

/-- A constraint present after the Foundation-coverage block survives to
the final GenEd model. -/
theorem mem_add_gened_of_mem_counts (ctx : ModelBuilderContext) (catalog : Catalog)
    (hcat : ctx.catalog = some catalog) (c : Constr)
    (hc : c ∈ (addFoundationCounts ctx.vars ctx.numSemesters
      (addFoundationAssign ctx.courses ctx.vars ctx.numSemesters
        (addCoreConstraints ctx.courses ctx.vars ctx.numSemesters ctx.model catalog.geneds)
        (course_foundations (foundation_reqs ctx.courses catalog.geneds)))
      (foundation_reqs ctx.courses catalog.geneds)).constrs) :
    c ∈ (add_gened_constraints ctx).model.constrs := by
  simp only [add_gened_constraints, hcat]
  exact mem_constrs_of_modelExt
    (modelExt_trans (modelExt_addFoundationPairCaps _ _ _ _ _)
      (modelExt_addSPConstraints _ _ _ _)) hc

/-- Claim C5 counterexample: two Foundations — `Set(["MISS"])` (code
absent, so it contributes no eligible set) and `Courses{2, ["X","Y"]}`.
The second Foundation's eligible set {X, Y} is paired, via
`...filter(Foundation).nth(f)` on the shrunken index, with the FIRST
Foundation's shape count 1 instead of its own count 2: the model contains
`x_X + x_Y ≥ 1` and no `≥ 2` constraint for that set. -/
theorem c5_counterexample :
    (foundationReqsOf [GenEd.foundation (.set ["MISS"]),
        GenEd.foundation (.coursesReq 2 ["X", "Y"])]).get? 1 =
      some (.coursesReq 2 ["X", "Y"]) ∧
    foundationContrib dataFnd.courses (.coursesReq 2 ["X", "Y"]) = some [0, 1] ∧
    foundationContrib dataFnd.courses (.set ["MISS"]) = none ∧
    ¬ (Constr.ge (sumInSched (ctxOf dataFnd schedTwo 10).vars 2 [0, 1]) (.ofInt 2) ∈
        (add_gened_constraints (ctxOf dataFnd schedTwo 10)).model.constrs) ∧
    Constr.ge (sumInSched (ctxOf dataFnd schedTwo 10).vars 2 [0, 1]) (.ofInt 1) ∈
      (add_gened_constraints (ctxOf dataFnd schedTwo 10)).model.constrs := by
  decide

/-- Claim C5 (amended): when no Foundation is dropped — every Foundation's
requirement contributes an eligible index set — each contributed set's
coverage constraint uses the required count derived from that same
Foundation's own `GenEdReq` shape.  (When an earlier Foundation is
dropped, the count is instead read from the Foundation at the set's
position among the retained sets, as the counterexample shows.) -/
theorem c5_theorem (ctx : ModelBuilderContext) (catalog : Catalog)
    (hcat : ctx.catalog = some catalog)
    (hnodrop : ∀ r ∈ foundationReqsOf catalog.geneds,
      (foundationContrib ctx.courses r).isSome)
    (k : Nat) (req : GenEdReq) (s : List Nat)
    (hk : (foundationReqsOf catalog.geneds).get? k = some req)
    (hs : foundationContrib ctx.courses req = some s) :
    Constr.ge (sumInSched ctx.vars ctx.numSemesters s) (.ofInt (genedReqCount req)) ∈
      (add_gened_constraints ctx).model.constrs := by
  have h1 : foundation_sets ctx.courses catalog.geneds =
      (foundationReqsOf catalog.geneds).map
        (fun r => (foundationContrib ctx.courses r).getD []) := by
    rw [foundation_sets_eq_filterMap, filterMap_eq_map_of_isSome _ [] _ hnodrop]
  have h2 : (foundation_sets ctx.courses catalog.geneds).get? k = some s := by
    rw [h1, List.get?_map, hk]
    simp [hs]
  have h3 : foundation_required catalog.geneds k = genedReqCount req := by
    have hk2 : (foundationReqsOf catalog.geneds)[k]? = some req := by
      rw [← List.get?_eq_getElem?]
      exact hk
    simp [foundation_required, hk2]
  have h4 : (foundation_reqs ctx.courses catalog.geneds).get? k =
      some (s, genedReqCount req) := by
    simp only [foundation_reqs]
    rw [List.get?_map, List.get?_enum, h2]
    simp [h3]
  have hfr : (s, genedReqCount req) ∈ foundation_reqs ctx.courses catalog.geneds :=
    List.get?_mem h4
  exact mem_add_gened_of_mem_counts ctx catalog hcat _
    (mem_addFoundationCounts _ _ _ _ _ hfr)

/-- Claim C5 amended-claim witness: a single Foundation
`Courses{1, ["X"]}` with X present — its constraint uses its own count. -/
theorem c5_witness :
    ((ctxOf dataFnd2 schedOne 10).catalog =
        some ⟨[.foundation (.coursesReq 1 ["X"])]⟩ ∧
     (∀ r ∈ foundationReqsOf [GenEd.foundation (.coursesReq 1 ["X"])],
        (foundationContrib (ctxOf dataFnd2 schedOne 10).courses r).isSome) ∧
     (foundationReqsOf [GenEd.foundation (.coursesReq 1 ["X"])]).get? 0 =
        some (.coursesReq 1 ["X"]) ∧
     foundationContrib (ctxOf dataFnd2 schedOne 10).courses (.coursesReq 1 ["X"]) =
        some [0]) ∧
    Constr.ge (sumInSched (ctxOf dataFnd2 schedOne 10).vars
        (ctxOf dataFnd2 schedOne 10).numSemesters [0])
      (.ofInt (genedReqCount (.coursesReq 1 ["X"]))) ∈
      (add_gened_constraints (ctxOf dataFnd2 schedOne 10)).model.constrs :=
  ⟨⟨by decide, by decide, by decide, by decide⟩,
    c5_theorem (ctxOf dataFnd2 schedOne 10) ⟨[.foundation (.coursesReq 1 ["X"])]⟩
      (by decide) (by decide) 0 (.coursesReq 1 ["X"]) [0] (by decide) (by decide)⟩

theorem getD_append_right_of_le {α : Type} (l1 l2 : List α) (n : Nat) (d : α)
    (h : l1.length ≤ n) : (l1 ++ l2).getD n d = l2.getD (n - l1.length) d := by
  simp [List.getD_eq_getElem?_getD, List.getElem?_append_right h]

theorem range_map_shift (n k : Nat) :
    (List.range (k + 1)).map (fun j => n + j) =
      n :: (List.range k).map (fun j => (n + 1) + j) := by
  rw [List.range_succ_eq_map, List.map_cons, List.map_map]
  congr 1
  refine List.map_congr_left ?_
  intro j _
  simp [Function.comp]
  omega

/-- The inner Foundation-assignment fold, fully characterised. -/
theorem assign_fold_spec (vars : List (List Nat)) (ns idx : Nat) :
    ∀ (fs : List Nat) (m : Model) (acc : List Nat),
      (fs.foldl (assignStep vars ns idx) (m, acc)).2 =
          acc ++ (List.range fs.length).map (fun j => m.doms.length + j) ∧
      (fs.foldl (assignStep vars ns idx) (m, acc)).1.doms =
          m.doms ++ List.replicate fs.length [((0 : Int), (1 : Int))] ∧
      (fs.foldl (assignStep vars ns idx) (m, acc)).1.constrs =
          m.constrs ++ ((List.range fs.length).map (fun j => m.doms.length + j)).map
            (fun v => Constr.le (.ofVar v) (course_in_schedule vars ns idx)) := by
  intro fs
  induction fs with
  | nil => intro m acc; simp
  | cons f fs ih =>
    intro m acc
    simp only [List.foldl_cons]
    have hstep : assignStep vars ns idx (m, acc) f =
        ({ doms := m.doms ++ [[((0 : Int), (1 : Int))]]
           constrs := m.constrs ++
             [Constr.le (.ofVar m.doms.length) (course_in_schedule vars ns idx)]
           objective := m.objective }, acc ++ [m.doms.length]) := by
      simp [assignStep, Model.newBoolVar, Model.newVar, Model.addLe]
    rw [hstep]
    obtain ⟨ih1, ih2, ih3⟩ := ih
      { doms := m.doms ++ [[((0 : Int), (1 : Int))]]
        constrs := m.constrs ++
          [Constr.le (.ofVar m.doms.length) (course_in_schedule vars ns idx)]
        objective := m.objective }
      (acc ++ [m.doms.length])
    refine ⟨?_, ?_, ?_⟩
    · rw [ih1]
      simp [range_map_shift, List.append_assoc]
    · rw [ih2]
      simp [List.append_assoc, List.replicate_succ]
    · rw [ih3]
      simp [range_map_shift, List.append_assoc]

/-- The assignment facts are stable under model extension. -/
theorem assignCourseFacts_of_modelExt {vars : List (List Nat)} {ns idx : Nat}
    {avs : List Nat} {M M2 : Model} (hext : ModelExt M M2)
    (h : assignCourseFacts vars ns idx avs M) :
    assignCourseFacts vars ns idx avs M2 := by
  obtain ⟨h1, h2, h3⟩ := h
  refine ⟨?_, mem_constrs_of_modelExt hext h2, mem_constrs_of_modelExt hext h3⟩
  intro a ha
  obtain ⟨hc, hlt, hd⟩ := h1 a ha
  exact ⟨mem_constrs_of_modelExt hext hc,
    lt_of_lt_of_le hlt (doms_length_le_of_modelExt hext),
    by rw [doms_getD_of_modelExt hext hlt]; exact hd⟩

/-- `addFoundationAssignCourse` establishes the assignment facts for the
fresh block of variables it allocates. -/
theorem addFoundationAssignCourse_facts (vars : List (List Nat)) (ns : Nat)
    (m : Model) (idx : Nat) (fs : List Nat) :
    assignCourseFacts vars ns idx
      ((List.range fs.length).map (fun j => m.doms.length + j))
      (addFoundationAssignCourse vars ns m idx fs) := by
  obtain ⟨h1, h2, h3⟩ := assign_fold_spec vars ns idx fs m []
  simp only [addFoundationAssignCourse, h1, List.nil_append]
  constructor
  · intro a ha
    obtain ⟨j, hj, rfl⟩ := List.mem_map.mp ha
    have hjlt : j < fs.length := List.mem_range.mp hj
    refine ⟨?_, ?_, ?_⟩
    · simp only [Model.addLe, Model.addEq, h3]
      refine List.mem_append_left _ (List.mem_append_left _ ?_)
      refine List.mem_append_right _ ?_
      exact List.mem_map_of_mem _ (List.mem_map_of_mem _ hj)
    · simp only [Model.addLe, Model.addEq, h2, List.length_append,
        List.length_replicate]
      omega
    · simp only [Model.addLe, Model.addEq, h2]
      rw [getD_append_right_of_le _ _ _ _ (by omega)]
      have : m.doms.length + j - m.doms.length = j := by omega
      rw [this, List.getD_eq_getElem?_getD]
      simp [List.getElem?_replicate, hjlt]
  · constructor
    · simp [Model.addLe, Model.addEq]
    · simp [Model.addLe, Model.addEq]

/-- Processing `course_foundations` establishes the assignment facts for
every required course with a non-empty eligible-Foundation list. -/
theorem addFoundationAssign_facts (courses : List Course) (vars : List (List Nat))
    (ns : Nat) (cf : List (Nat × List Nat)) (m : Model) (idx : Nat) (fs : List Nat)
    (hmem : (idx, fs) ∈ cf)
    (hreq : ((courses.getD idx default).required && !fs.isEmpty) = true) :
    ∃ avs : List Nat, avs.length = fs.length ∧
      assignCourseFacts vars ns idx avs (addFoundationAssign courses vars ns m cf) := by
  induction cf generalizing m with
  | nil => cases hmem
  | cons p ps ih =>
    rcases List.mem_cons.mp hmem with hp | hps
    · subst hp
      simp only [addFoundationAssign, List.foldl_cons, hreq, if_true]
      refine ⟨(List.range fs.length).map (fun j => m.doms.length + j), by simp, ?_⟩
      refine assignCourseFacts_of_modelExt ?_ (addFoundationAssignCourse_facts vars ns m idx fs)
      refine modelExt_foldl id _ ?_ ps _
      intro b q
      by_cases hq : (courses.getD q.1 default).required && !q.2.isEmpty
      · simp only [id, hq, if_true]
        exact modelExt_addFoundationAssignCourse vars ns b q.1 q.2
      · simp only [id, hq, if_false]
        exact modelExt_refl b
    · simp only [addFoundationAssign, List.foldl_cons]
      exact ih _ hps

/-- A list of 0/1 values sums to its number of ones. -/
theorem sum_eq_count_one (l : List Int) (h : ∀ x ∈ l, x = 0 ∨ x = 1) :
    l.sum = (l.count 1 : Int) := by
  induction l with
  | nil => simp
  | cons x xs ih =>
    have ihs := ih (fun y hy => h y (List.mem_cons_of_mem _ hy))
    rcases h x (List.mem_cons_self x xs) with h0 | h1
    · subst h0
      simp [List.count_cons, ihs]
    · subst h1
      simp [List.count_cons, ihs]
      ring

/-- Claim C6 (confirmed): for every required course eligible for at least
one Foundation, the model holds one boolean assignment variable per
eligible Foundation, each bounded above by the course's in-schedule
indicator; their sum is capped at 1 and equals the in-schedule indicator.
Consequently, under any feasible assignment, a scheduled required course
has exactly one assignment variable set and an unscheduled one has none. -/
theorem c6_theorem (ctx : ModelBuilderContext) (catalog : Catalog)
    (hcat : ctx.catalog = some catalog) (idx : Nat) (fs : List Nat)
    (hmem : (idx, fs) ∈ course_foundations (foundation_reqs ctx.courses catalog.geneds))
    (hreq : (ctx.courses.getD idx default).required = true)
    (hne : fs.isEmpty = false) :
    ∃ avs : List Nat, avs.length = fs.length ∧
      (∀ a ∈ avs,
        Constr.le (.ofVar a) (course_in_schedule ctx.vars ctx.numSemesters idx) ∈
          (add_gened_constraints ctx).model.constrs ∧
        (add_gened_constraints ctx).model.doms.getD a [] = [((0 : Int), (1 : Int))]) ∧
      Constr.le (sumVarExprs avs) (.ofInt 1) ∈ (add_gened_constraints ctx).model.constrs ∧
      Constr.eqc (sumVarExprs avs)
          (course_in_schedule ctx.vars ctx.numSemesters idx) ∈
        (add_gened_constraints ctx).model.constrs ∧
      (∀ σ, (add_gened_constraints ctx).model.Feasible σ →
        (∀ a ∈ avs, σ a = 0 ∨ σ a = 1) ∧
        (avs.map σ).sum = (course_in_schedule ctx.vars ctx.numSemesters idx).eval σ ∧
        (avs.map σ).sum ≤ 1 ∧
        ((course_in_schedule ctx.vars ctx.numSemesters idx).eval σ = 1 →
          (avs.map σ).count 1 = 1) ∧
        ((course_in_schedule ctx.vars ctx.numSemesters idx).eval σ = 0 →
          ∀ a ∈ avs, σ a = 0)) := by
  have hreq2 : ((ctx.courses.getD idx default).required && !fs.isEmpty) = true := by
    rw [hreq, hne]
    rfl
  obtain ⟨avs, hlen, hfacts⟩ := addFoundationAssign_facts ctx.courses ctx.vars
    ctx.numSemesters (course_foundations (foundation_reqs ctx.courses catalog.geneds))
    (addCoreConstraints ctx.courses ctx.vars ctx.numSemesters ctx.model catalog.geneds)
    idx fs hmem hreq2
  have hext : ModelExt
      (addFoundationAssign ctx.courses ctx.vars ctx.numSemesters
        (addCoreConstraints ctx.courses ctx.vars ctx.numSemesters ctx.model catalog.geneds)
        (course_foundations (foundation_reqs ctx.courses catalog.geneds)))
      (add_gened_constraints ctx).model := by
    simp only [add_gened_constraints, hcat]
    exact modelExt_trans (modelExt_addFoundationCounts _ _ _ _)
      (modelExt_trans (modelExt_addFoundationPairCaps _ _ _ _ _)
        (modelExt_addSPConstraints _ _ _ _))
  have hfinal := assignCourseFacts_of_modelExt hext hfacts
  obtain ⟨h1, h2, h3⟩ := hfinal
  refine ⟨avs, hlen, ?_, h2, h3, ?_⟩
  · intro a ha
    obtain ⟨hc, _, hd⟩ := h1 a ha
    exact ⟨hc, hd⟩
  · intro σ hfeas
    have h01 : ∀ a ∈ avs, σ a = 0 ∨ σ a = 1 := by
      intro a ha
      obtain ⟨_, hlt, hd⟩ := h1 a ha
      have hin := hfeas.1 a hlt
      rw [hd] at hin
      exact indom_bool_cases hin
    have heq : (avs.map σ).sum = (course_in_schedule ctx.vars ctx.numSemesters idx).eval σ := by
      have := hfeas.2 _ h3
      rw [show Constr.holds σ (Constr.eqc (sumVarExprs avs)
        (course_in_schedule ctx.vars ctx.numSemesters idx)) =
        ((sumVarExprs avs).eval σ = (course_in_schedule ctx.vars ctx.numSemesters idx).eval σ)
        from rfl] at this
      rw [eval_sumVarExprs] at this
      exact this
    have hle : (avs.map σ).sum ≤ 1 := by
      have := hfeas.2 _ h2
      rw [show Constr.holds σ (Constr.le (sumVarExprs avs) (.ofInt 1)) =
        ((sumVarExprs avs).eval σ ≤ (LinearExpr.ofInt 1).eval σ) from rfl] at this
      rw [eval_sumVarExprs, eval_ofInt] at this
      exact this
    have hvals : ∀ x ∈ avs.map σ, x = 0 ∨ x = 1 := by
      intro x hx
      obtain ⟨a, ha, rfl⟩ := List.mem_map.mp hx
      exact h01 a ha
    have hcount := sum_eq_count_one (avs.map σ) hvals
    refine ⟨h01, heq, hle, ?_, ?_⟩
    · intro hone
      rw [heq, hone] at hcount
      omega
    · intro hzero a ha
      have hsum0 : (avs.map σ).sum = 0 := by rw [heq, hzero]
      rw [hsum0] at hcount
      have hcount0 : (avs.map σ).count 1 = 0 := by omega
      rcases h01 a ha with h0 | h1v
      · exact h0
      · exfalso
        have : (1 : Int) ∈ avs.map σ := by
          rw [← h1v]
          exact List.mem_map_of_mem σ ha
        rw [← List.count_pos_iff_mem] at this
        omega

/-- Claim C6 witness: one Foundation `Courses{1, ["X"]}` with required X
— the assignment block exists with one variable. -/
theorem c6_witness :
    ((ctxOf dataFnd2 schedOne 10).catalog =
        some ⟨[.foundation (.coursesReq 1 ["X"])]⟩ ∧
     ((0 : Nat), [(0 : Nat)]) ∈ course_foundations
        (foundation_reqs (ctxOf dataFnd2 schedOne 10).courses
          [.foundation (.coursesReq 1 ["X"])]) ∧
     ((ctxOf dataFnd2 schedOne 10).courses.getD 0 default).required = true ∧
     ([(0 : Nat)] : List Nat).isEmpty = false) ∧
    (∃ avs : List Nat, avs.length = ([(0 : Nat)] : List Nat).length ∧
      (∀ a ∈ avs,
        Constr.le (.ofVar a)
            (course_in_schedule (ctxOf dataFnd2 schedOne 10).vars
              (ctxOf dataFnd2 schedOne 10).numSemesters 0) ∈
          (add_gened_constraints (ctxOf dataFnd2 schedOne 10)).model.constrs ∧
        (add_gened_constraints (ctxOf dataFnd2 schedOne 10)).model.doms.getD a [] =
          [((0 : Int), (1 : Int))]) ∧
      Constr.le (sumVarExprs avs) (.ofInt 1) ∈
        (add_gened_constraints (ctxOf dataFnd2 schedOne 10)).model.constrs ∧
      Constr.eqc (sumVarExprs avs)
          (course_in_schedule (ctxOf dataFnd2 schedOne 10).vars
            (ctxOf dataFnd2 schedOne 10).numSemesters 0) ∈
        (add_gened_constraints (ctxOf dataFnd2 schedOne 10)).model.constrs ∧
      (∀ σ, (add_gened_constraints (ctxOf dataFnd2 schedOne 10)).model.Feasible σ →
        (∀ a ∈ avs, σ a = 0 ∨ σ a = 1) ∧
        (avs.map σ).sum =
          (course_in_schedule (ctxOf dataFnd2 schedOne 10).vars
            (ctxOf dataFnd2 schedOne 10).numSemesters 0).eval σ ∧
        (avs.map σ).sum ≤ 1 ∧
        ((course_in_schedule (ctxOf dataFnd2 schedOne 10).vars
            (ctxOf dataFnd2 schedOne 10).numSemesters 0).eval σ = 1 →
          (avs.map σ).count 1 = 1) ∧
        ((course_in_schedule (ctxOf dataFnd2 schedOne 10).vars
            (ctxOf dataFnd2 schedOne 10).numSemesters 0).eval σ = 0 →
          ∀ a ∈ avs, σ a = 0))) :=
  ⟨⟨by decide, by decide, by decide, by decide⟩,
    c6_theorem (ctxOf dataFnd2 schedOne 10) ⟨[.foundation (.coursesReq 1 ["X"])]⟩
      (by decide) 0 [0] (by decide) (by decide) (by decide)⟩

/-- A fold whose steps extend the model and one of whose steps
establishes a model-extension-stable predicate leaves it established. -/
theorem foldl_pred {α β : Type} (π : β → Model) (f : β → α → β)
    (P : Model → Prop)
    (hP : ∀ {M M2 : Model}, ModelExt M M2 → P M → P M2)
    (hext : ∀ b a, ModelExt (π b) (π (f b a)))
    {l : List α} {a : α} (ha : a ∈ l)
    (hemit : ∀ b, P (π (f b a))) :
    ∀ b, P (π (l.foldl f b)) := by
  induction l with
  | nil => cases ha
  | cons x xs ih =>
    intro b
    rcases List.mem_cons.mp ha with hax | hatl
    · simp only [List.foldl_cons]
      exact hP (modelExt_foldl π f hext xs (f b x)) (hax ▸ hemit b)
    · exact ih hatl (f b x)

theorem optIndicatorFacts_of_modelExt {vars : List (List Nat)} {ns : Nat}
    {indices : List Nat} {n v : Nat} {M M2 : Model} (hext : ModelExt M M2)
    (h : optIndicatorFacts vars ns indices n v M) :
    optIndicatorFacts vars ns indices n v M2 := by
  obtain ⟨h1, h2, h3, h4⟩ := h
  exact ⟨lt_of_lt_of_le h1 (doms_length_le_of_modelExt hext),
    by rw [doms_getD_of_modelExt hext h1]; exact h2,
    mem_constrs_of_modelExt hext h3, mem_constrs_of_modelExt hext h4⟩

theorem setOptsBlockFacts_of_modelExt {vars : List (List Nat)} {ns : Nat}
    {indices : List Nat} {n : Nat} {M M2 : Model} (hext : ModelExt M M2)
    (h : setOptsBlockFacts vars ns indices n M) :
    setOptsBlockFacts vars ns indices n M2 := by
  obtain ⟨ovs, v, hv, hb, hfacts, hsum⟩ := h
  refine ⟨ovs, v, hv, ?_, optIndicatorFacts_of_modelExt hext hfacts,
    mem_constrs_of_modelExt hext hsum⟩
  intro u hu
  obtain ⟨hlt, hd⟩ := hb u hu
  exact ⟨lt_of_lt_of_le hlt (doms_length_le_of_modelExt hext),
    by rw [doms_getD_of_modelExt hext hlt]; exact hd⟩

/-- The second component of the `setOptsStep` fold only grows. -/
theorem setOptsStep_fold_snd_mono (courses : List Course) (vars : List (List Nat))
    (ns : Nat) :
    ∀ (os : List (List CourseCode)) (acc : Model × List Nat),
      ∃ t, (os.foldl (setOptsStep courses vars ns) acc).2 = acc.2 ++ t := by
  intro os
  induction os with
  | nil => intro acc; exact ⟨[], by simp⟩
  | cons o os ih =>
    intro acc
    simp only [List.foldl_cons]
    obtain ⟨t, ht⟩ := ih (setOptsStep courses vars ns acc o)
    cases h : codes_to_indices courses o with
    | none =>
      rw [ht]
      simp only [setOptsStep, h]
      exact ⟨t, rfl⟩
    | some indices =>
      rw [ht]
      simp only [setOptsStep, h]
      exact ⟨[acc.1.newBoolVar.1] ++ t, by simp⟩

/-- All collected option indicators are boolean variables of the model. -/
theorem setOptsStep_fold_bools (courses : List Course) (vars : List (List Nat))
    (ns : Nat) :
    ∀ (os : List (List CourseCode)) (acc : Model × List Nat),
      (∀ u ∈ acc.2, u < acc.1.doms.length ∧
        acc.1.doms.getD u [] = [((0 : Int), (1 : Int))]) →
      ∀ u ∈ (os.foldl (setOptsStep courses vars ns) acc).2,
        u < (os.foldl (setOptsStep courses vars ns) acc).1.doms.length ∧
        (os.foldl (setOptsStep courses vars ns) acc).1.doms.getD u [] =
          [((0 : Int), (1 : Int))] := by
  intro os
  induction os with
  | nil => intro acc h; exact h
  | cons o os ih =>
    intro acc h
    simp only [List.foldl_cons]
    refine ih (setOptsStep courses vars ns acc o) ?_
    intro u hu
    cases hco : codes_to_indices courses o with
    | none =>
      simp only [setOptsStep, hco] at hu ⊢
      exact h u hu
    | some indices =>
      simp only [setOptsStep, hco] at hu ⊢
      simp only [Model.addGe, Model.addLe, Model.newBoolVar, Model.newVar] at hu ⊢
      rcases List.mem_append.mp hu with hold | hnew
      · obtain ⟨hlt, hd⟩ := h u hold
        refine ⟨by simp; omega, ?_⟩
        rw [List.getD_append _ _ _ _ hlt]
        exact hd
      · have hun : u = acc.1.doms.length := List.mem_singleton.mp hnew
        subst hun
        refine ⟨by simp, ?_⟩
        rw [getD_append_right_of_le _ _ _ _ (le_refl _)]
        simp

/-- A fully-present option gets its indicator and big-M link somewhere in
the fold. -/
theorem setOptsStep_fold_facts (courses : List Course) (vars : List (List Nat))
    (ns : Nat) (opt : List CourseCode) (indices : List Nat)
    (hind : codes_to_indices courses opt = some indices) :
    ∀ (os : List (List CourseCode)) (acc : Model × List Nat), opt ∈ os →
      ∃ v ∈ (os.foldl (setOptsStep courses vars ns) acc).2,
        optIndicatorFacts vars ns indices opt.length v
          (os.foldl (setOptsStep courses vars ns) acc).1 := by
  intro os
  induction os with
  | nil => intro acc h; cases h
  | cons o os ih =>
    intro acc hmem
    simp only [List.foldl_cons]
    rcases List.mem_cons.mp hmem with hfirst | hrest
    · have hstep : setOptsStep courses vars ns acc o =
          (((acc.1.newBoolVar.2.addLe (sumInSched vars ns indices)
            ((LinearExpr.ofInt (o.length : Int)).add
              (nFoldAdd o.length ((LinearExpr.ofInt 1).sub (.ofVar acc.1.newBoolVar.1))))).addGe
            (sumInSched vars ns indices)
            ((LinearExpr.ofInt (o.length : Int)).sub
              (nFoldAdd o.length ((LinearExpr.ofInt 1).sub (.ofVar acc.1.newBoolVar.1))))),
           acc.2 ++ [acc.1.newBoolVar.1]) := by
        rw [← hfirst] at *
        simp only [setOptsStep, hind]
      have hvfacts : optIndicatorFacts vars ns indices opt.length acc.1.newBoolVar.1
          (setOptsStep courses vars ns acc o).1 := by
        rw [hstep, ← hfirst]
        refine ⟨?_, ?_, ?_, ?_⟩
        · simp [Model.addGe, Model.addLe, Model.newBoolVar, Model.newVar]
        · simp only [Model.addGe, Model.addLe, Model.newBoolVar, Model.newVar]
          rw [getD_append_right_of_le _ _ _ _ (le_refl _)]
          simp
        · simp [Model.addGe, Model.addLe]
        · simp [Model.addGe, Model.addLe]
      have hvin : acc.1.newBoolVar.1 ∈ (setOptsStep courses vars ns acc o).2 := by
        rw [hstep]
        simp
      obtain ⟨t, ht⟩ := setOptsStep_fold_snd_mono courses vars ns os
        (setOptsStep courses vars ns acc o)
      refine ⟨acc.1.newBoolVar.1, ?_, ?_⟩
      · rw [ht]
        exact List.mem_append_left _ hvin
      · refine optIndicatorFacts_of_modelExt ?_ hvfacts
        exact modelExt_foldl Prod.fst _ (modelExt_setOptsStep courses vars ns) os _
    · exact ih (setOptsStep courses vars ns acc o) hrest

/-- The Core `SetOpts` emission establishes the block facts for each
fully-present option. -/
theorem addCoreGened_setOpts_blockFacts (courses : List Course)
    (vars : List (List Nat)) (ns : Nat) (m : Model) (opts : List (List CourseCode))
    (opt : List CourseCode) (indices : List Nat)
    (hopt : opt ∈ opts) (hind : codes_to_indices courses opt = some indices) :
    setOptsBlockFacts vars ns indices opt.length
      (addCoreGened courses vars ns m (.setOpts opts)) := by
  rw [addCoreGened_setOpts]
  obtain ⟨v, hv, hfacts⟩ := setOptsStep_fold_facts courses vars ns opt indices hind
    opts (m, []) hopt
  have hbools := setOptsStep_fold_bools courses vars ns opts (m, []) (by simp)
  have hne : ((opts.foldl (setOptsStep courses vars ns) (m, [])).2).isEmpty = false := by
    cases hh : (opts.foldl (setOptsStep courses vars ns) (m, [])).2 with
    | nil => rw [hh] at hv; cases hv
    | cons a as => simp
  simp only [hne, Bool.false_eq_true, if_false]
  refine ⟨(opts.foldl (setOptsStep courses vars ns) (m, [])).2, v, hv, ?_, ?_, ?_⟩
  · intro u hu
    obtain ⟨hlt, hd⟩ := hbools u hu
    refine ⟨?_, ?_⟩
    · simpa [Model.addGe] using hlt
    · simpa [Model.addGe] using hd
  · refine optIndicatorFacts_of_modelExt (modelExt_addGe _ _ _) hfacts
  · simp [Model.addGe]

/-- Claim C7 (confirmed): for a Core `SetOpts` GenEd, each fully-present
option set of size n obtains one boolean indicator v with the two-sided
big-M link — the option's in-schedule sum is ≤ n + n·(1−v) and
≥ n − n·(1−v), so v=1 forces the sum to equal n and v=0 relaxes the
bounds to [0, 2n] — and the model requires the collected option
indicators to sum to at least 1. -/
theorem c7_theorem (ctx : ModelBuilderContext) (catalog : Catalog)
    (hcat : ctx.catalog = some catalog) (opts : List (List CourseCode))
    (opt : List CourseCode) (indices : List Nat)
    (hg : GenEd.core (.setOpts opts) ∈ catalog.geneds)
    (hopt : opt ∈ opts) (hind : codes_to_indices ctx.courses opt = some indices) :
    ∃ ovs v, v ∈ ovs ∧
      (∀ u ∈ ovs, (add_gened_constraints ctx).model.doms.getD u [] =
        [((0 : Int), (1 : Int))]) ∧
      Constr.le (sumInSched ctx.vars ctx.numSemesters indices)
          ((LinearExpr.ofInt (opt.length : Int)).add
            (nFoldAdd opt.length ((LinearExpr.ofInt 1).sub (.ofVar v)))) ∈
        (add_gened_constraints ctx).model.constrs ∧
      Constr.ge (sumInSched ctx.vars ctx.numSemesters indices)
          ((LinearExpr.ofInt (opt.length : Int)).sub
            (nFoldAdd opt.length ((LinearExpr.ofInt 1).sub (.ofVar v)))) ∈
        (add_gened_constraints ctx).model.constrs ∧
      Constr.ge (sumVarExprs ovs) (.ofInt 1) ∈ (add_gened_constraints ctx).model.constrs ∧
      (∀ σ, (add_gened_constraints ctx).model.Feasible σ →
        (σ v = 0 ∨ σ v = 1) ∧
        (σ v = 1 →
          (sumInSched ctx.vars ctx.numSemesters indices).eval σ = (opt.length : Int)) ∧
        (σ v = 0 →
          0 ≤ (sumInSched ctx.vars ctx.numSemesters indices).eval σ ∧
          (sumInSched ctx.vars ctx.numSemesters indices).eval σ ≤ 2 * (opt.length : Int)) ∧
        1 ≤ (ovs.map σ).sum) := by
  have hblock : setOptsBlockFacts ctx.vars ctx.numSemesters indices opt.length
      (add_gened_constraints ctx).model := by
    have hcore : setOptsBlockFacts ctx.vars ctx.numSemesters indices opt.length
        (addCoreConstraints ctx.courses ctx.vars ctx.numSemesters ctx.model
          catalog.geneds) := by
      refine foldl_pred id _ _ (fun he hp => setOptsBlockFacts_of_modelExt he hp) ?_ hg ?_
        ctx.model
      · intro b g
        cases g with
        | core req => exact modelExt_addCoreGened _ _ _ b req
        | foundation req => exact modelExt_refl b
        | skillAndPerspective req => exact modelExt_refl b
      · intro b
        exact addCoreGened_setOpts_blockFacts ctx.courses ctx.vars ctx.numSemesters b
          opts opt indices hopt hind
    refine setOptsBlockFacts_of_modelExt ?_ hcore
    have hh : (add_gened_constraints ctx).model =
        addSPConstraints ctx.vars ctx.numSemesters
          (addFoundationPairCaps ctx.courses ctx.vars ctx.numSemesters
            (addFoundationCounts ctx.vars ctx.numSemesters
              (addFoundationAssign ctx.courses ctx.vars ctx.numSemesters
                (addCoreConstraints ctx.courses ctx.vars ctx.numSemesters ctx.model
                  catalog.geneds)
                (course_foundations (foundation_reqs ctx.courses catalog.geneds)))
              (foundation_reqs ctx.courses catalog.geneds))
            (foundation_reqs ctx.courses catalog.geneds))
          (sp_sets ctx.courses catalog.geneds) := by
      simp only [add_gened_constraints, hcat]
    rw [hh]
    exact modelExt_trans (modelExt_addFoundationAssign _ _ _ _ _)
      (modelExt_trans (modelExt_addFoundationCounts _ _ _ _)
        (modelExt_trans (modelExt_addFoundationPairCaps _ _ _ _ _)
          (modelExt_addSPConstraints _ _ _ _)))
  obtain ⟨ovs, v, hv, hbools, ⟨hvlt, hvdom, hle, hge⟩, hsum⟩ := hblock
  refine ⟨ovs, v, hv, fun u hu => (hbools u hu).2, hle, hge, hsum, ?_⟩
  intro σ hfeas
  have h01 : σ v = 0 ∨ σ v = 1 := by
    have hin := hfeas.1 v hvlt
    rw [hvdom] at hin
    exact indom_bool_cases hin
  have hlev : (sumInSched ctx.vars ctx.numSemesters indices).eval σ ≤
      (opt.length : Int) + (opt.length : Int) * (1 - σ v) := by
    have := hfeas.2 _ hle
    rw [show Constr.holds σ (Constr.le (sumInSched ctx.vars ctx.numSemesters indices)
        ((LinearExpr.ofInt (opt.length : Int)).add
          (nFoldAdd opt.length ((LinearExpr.ofInt 1).sub (.ofVar v))))) =
      ((sumInSched ctx.vars ctx.numSemesters indices).eval σ ≤
        ((LinearExpr.ofInt (opt.length : Int)).add
          (nFoldAdd opt.length ((LinearExpr.ofInt 1).sub (.ofVar v)))).eval σ) from rfl] at this
    rw [eval_add, eval_nFoldAdd, eval_sub, eval_ofInt, eval_ofInt, eval_ofVar] at this
    exact this
  have hgev : (sumInSched ctx.vars ctx.numSemesters indices).eval σ ≥
      (opt.length : Int) - (opt.length : Int) * (1 - σ v) := by
    have := hfeas.2 _ hge
    rw [show Constr.holds σ (Constr.ge (sumInSched ctx.vars ctx.numSemesters indices)
        ((LinearExpr.ofInt (opt.length : Int)).sub
          (nFoldAdd opt.length ((LinearExpr.ofInt 1).sub (.ofVar v))))) =
      ((sumInSched ctx.vars ctx.numSemesters indices).eval σ ≥
        ((LinearExpr.ofInt (opt.length : Int)).sub
          (nFoldAdd opt.length ((LinearExpr.ofInt 1).sub (.ofVar v)))).eval σ) from rfl] at this
    rw [eval_sub, eval_nFoldAdd, eval_sub, eval_ofInt, eval_ofInt, eval_ofVar] at this
    exact this
  refine ⟨h01, ?_, ?_, ?_⟩
  · intro hv1
    rw [hv1] at hlev hgev
    simp at hlev hgev
    omega
  · intro hv0
    rw [hv0] at hlev hgev
    simp at hlev hgev
    constructor
    · omega
    · omega
  · have := hfeas.2 _ hsum
    rw [show Constr.holds σ (Constr.ge (sumVarExprs ovs) (.ofInt 1)) =
      ((sumVarExprs ovs).eval σ ≥ (LinearExpr.ofInt 1).eval σ) from rfl] at this
    rw [eval_sumVarExprs, eval_ofInt] at this
    exact this

/-- Claim C7 witness: one Core option set {X, Y}, fully present. -/
theorem c7_witness :
    ((ctxOf dataOpts schedTwo 10).catalog = some ⟨[.core (.setOpts [["X", "Y"]])]⟩ ∧
     GenEd.core (.setOpts [["X", "Y"]]) ∈
        (Catalog.mk [.core (.setOpts [["X", "Y"]])]).geneds ∧
     ["X", "Y"] ∈ [["X", "Y"]] ∧
     codes_to_indices (ctxOf dataOpts schedTwo 10).courses ["X", "Y"] = some [0, 1]) ∧
    (∃ ovs v, v ∈ ovs ∧
      (∀ u ∈ ovs, (add_gened_constraints (ctxOf dataOpts schedTwo 10)).model.doms.getD u [] =
        [((0 : Int), (1 : Int))]) ∧
      Constr.le (sumInSched (ctxOf dataOpts schedTwo 10).vars
          (ctxOf dataOpts schedTwo 10).numSemesters [0, 1])
          ((LinearExpr.ofInt ((["X", "Y"] : List CourseCode).length : Int)).add
            (nFoldAdd (["X", "Y"] : List CourseCode).length
              ((LinearExpr.ofInt 1).sub (.ofVar v)))) ∈
        (add_gened_constraints (ctxOf dataOpts schedTwo 10)).model.constrs ∧
      Constr.ge (sumInSched (ctxOf dataOpts schedTwo 10).vars
          (ctxOf dataOpts schedTwo 10).numSemesters [0, 1])
          ((LinearExpr.ofInt ((["X", "Y"] : List CourseCode).length : Int)).sub
            (nFoldAdd (["X", "Y"] : List CourseCode).length
              ((LinearExpr.ofInt 1).sub (.ofVar v)))) ∈
        (add_gened_constraints (ctxOf dataOpts schedTwo 10)).model.constrs ∧
      Constr.ge (sumVarExprs ovs) (.ofInt 1) ∈
        (add_gened_constraints (ctxOf dataOpts schedTwo 10)).model.constrs ∧
      (∀ σ, (add_gened_constraints (ctxOf dataOpts schedTwo 10)).model.Feasible σ →
        (σ v = 0 ∨ σ v = 1) ∧
        (σ v = 1 →
          (sumInSched (ctxOf dataOpts schedTwo 10).vars
            (ctxOf dataOpts schedTwo 10).numSemesters [0, 1]).eval σ =
            ((["X", "Y"] : List CourseCode).length : Int)) ∧
        (σ v = 0 →
          0 ≤ (sumInSched (ctxOf dataOpts schedTwo 10).vars
            (ctxOf dataOpts schedTwo 10).numSemesters [0, 1]).eval σ ∧
          (sumInSched (ctxOf dataOpts schedTwo 10).vars
            (ctxOf dataOpts schedTwo 10).numSemesters [0, 1]).eval σ ≤
            2 * ((["X", "Y"] : List CourseCode).length : Int)) ∧
        1 ≤ (ovs.map σ).sum)) :=
  ⟨⟨by decide, by decide, by decide, by decide⟩,
    c7_theorem (ctxOf dataOpts schedTwo 10) ⟨[.core (.setOpts [["X", "Y"]])]⟩
      (by decide) [["X", "Y"]] ["X", "Y"] [0, 1] (by decide) (by decide) (by decide)⟩

/-- A model with fewer variables than another's base also validates the
S&P constraint shapes of the larger base. -/
theorem spNewConstr_mono {base base2 : Nat} {vars : List (List Nat)} {ns : Nat}
    {sets : List (List Nat)} {c : Constr} (hb : base ≤ base2)
    (h : spNewConstr base2 vars ns sets c) : spNewConstr base vars ns sets c := by
  rcases h with ⟨u, idx, hu, hidx, rfl⟩ | ⟨us, hus, rfl⟩
  · exact Or.inl ⟨u, idx, le_trans hb hu, hidx, rfl⟩
  · exact Or.inr ⟨us, fun u hu => le_trans hb (hus u hu), rfl⟩

/-- Any model whose extension a feasible assignment satisfies is itself
satisfied. -/
theorem feasible_mono {m m2 : Model} (hext : ModelExt m m2) {σ : Nat → Int}
    (h : m2.Feasible σ) : m.Feasible σ := by
  obtain ⟨hd, hc⟩ := h
  constructor
  · intro v hv
    have hv2 : v < m2.doms.length := lt_of_lt_of_le hv (doms_length_le_of_modelExt hext)
    have := hd v hv2
    rwa [doms_getD_of_modelExt hext hv] at this
  · intro c hcm
    exact hc c (mem_constrs_of_modelExt hext hcm)

/-- Characterisation of the inner used-for-category fold. -/
theorem sp_course_fold_spec (vars : List (List Nat)) (ns idx : Nat) :
    ∀ (ss : List (List Nat)) (m : Model) (acc : List Nat),
      ∃ newvs : List Nat,
        (ss.foldl (spStep vars ns idx) (m, acc)).2 = acc ++ newvs ∧
        (∀ u ∈ newvs, m.doms.length ≤ u) ∧
        (ss.foldl (spStep vars ns idx) (m, acc)).1.doms =
          m.doms ++ newvs.map (fun _ => [((0 : Int), (1 : Int))]) ∧
        (ss.foldl (spStep vars ns idx) (m, acc)).1.constrs =
          m.constrs ++ newvs.map
            (fun v => Constr.le (.ofVar v) (course_in_schedule vars ns idx)) := by
  intro ss
  induction ss with
  | nil =>
    intro m acc
    exact ⟨[], by simp, by simp, by simp, by simp⟩
  | cons s ss ih =>
    intro m acc
    simp only [List.foldl_cons]
    by_cases hmem : idx ∈ s
    · have hstep : spStep vars ns idx (m, acc) s =
          ({ doms := m.doms ++ [[((0 : Int), (1 : Int))]]
             constrs := m.constrs ++
               [Constr.le (.ofVar m.doms.length) (course_in_schedule vars ns idx)]
             objective := m.objective }, acc ++ [m.doms.length]) := by
        simp [spStep, hmem, Model.newBoolVar, Model.newVar, Model.addLe]
      rw [hstep]
      obtain ⟨newvs, h1, h2, h3, h4⟩ := ih
        { doms := m.doms ++ [[((0 : Int), (1 : Int))]]
          constrs := m.constrs ++
            [Constr.le (.ofVar m.doms.length) (course_in_schedule vars ns idx)]
          objective := m.objective }
        (acc ++ [m.doms.length])
      refine ⟨m.doms.length :: newvs, ?_, ?_, ?_, ?_⟩
      · rw [h1]
        simp
      · intro u hu
        rcases List.mem_cons.mp hu with rfl | hu2
        · exact le_refl _
        · have := h2 u hu2
          simp at this
          omega
      · rw [h3]
        simp
      · rw [h4]
        simp
    · have hstep : spStep vars ns idx (m, acc) s = (m, acc) := by
        simp [spStep, hmem]
      rw [hstep]
      exact ih m acc

/-- Characterisation of `addSPCourse`: boolean variables only, plus
constraints of the allowed S&P shapes. -/
theorem addSPCourse_spec (vars : List (List Nat)) (ns : Nat) (m : Model)
    (sets : List (List Nat)) (idx : Nat) (hidx : idx ∈ spCourseList sets) :
    ∃ ds cs, (addSPCourse vars ns m sets idx).doms = m.doms ++ ds ∧
      (∀ d ∈ ds, d = [((0 : Int), (1 : Int))]) ∧
      (addSPCourse vars ns m sets idx).constrs = m.constrs ++ cs ∧
      (∀ c ∈ cs, spNewConstr m.doms.length vars ns sets c) := by
  obtain ⟨newvs, h1, h2, h3, h4⟩ := sp_course_fold_spec vars ns idx sets m []
  simp only [addSPCourse, Model.addLe, h1, List.nil_append]
  refine ⟨newvs.map (fun _ => [((0 : Int), (1 : Int))]),
    (newvs.map (fun v => Constr.le (.ofVar v) (course_in_schedule vars ns idx))) ++
      [Constr.le (sumVarExprs newvs) (.ofInt 3)], ?_, ?_, ?_, ?_⟩
  · rw [h3]
  · intro d hd
    obtain ⟨_, _, rfl⟩ := List.mem_map.mp hd
    rfl
  · rw [h4, List.append_assoc]
  · intro c hc
    rcases List.mem_append.mp hc with hc1 | hc2
    · obtain ⟨v, hv, rfl⟩ := List.mem_map.mp hc1
      exact Or.inl ⟨v, idx, h2 v hv, hidx, rfl⟩
    · rw [List.mem_singleton.mp hc2]
      exact Or.inr ⟨newvs, h2, rfl⟩

/-- Characterisation of the whole Skill-and-Perspective block: it appends
only boolean variables and constraints of the allowed shapes. -/
theorem addSPConstraints_spec (vars : List (List Nat)) (ns : Nat)
    (sets : List (List Nat)) :
    ∀ (l : List Nat), (∀ i ∈ l, i ∈ spCourseList sets) →
    ∀ (m : Model),
      ∃ ds cs, (l.foldl (fun m idx =>
          if 3 < spCount sets idx then addSPCourse vars ns m sets idx else m) m).doms =
            m.doms ++ ds ∧
        (∀ d ∈ ds, d = [((0 : Int), (1 : Int))]) ∧
        (l.foldl (fun m idx =>
          if 3 < spCount sets idx then addSPCourse vars ns m sets idx else m) m).constrs =
            m.constrs ++ cs ∧
        (∀ c ∈ cs, spNewConstr m.doms.length vars ns sets c) := by
  intro l
  induction l with
  | nil =>
    intro _ m
    exact ⟨[], [], by simp, by simp, by simp, by simp⟩
  | cons i l ih =>
    intro hl m
    simp only [List.foldl_cons]
    by_cases hcount : 3 < spCount sets i
    · simp only [hcount, if_true]
      obtain ⟨ds1, cs1, hd1, hb1, hc1, hs1⟩ :=
        addSPCourse_spec vars ns m sets i (hl i (List.mem_cons_self i l))
      obtain ⟨ds2, cs2, hd2, hb2, hc2, hs2⟩ :=
        ih (fun j hj => hl j (List.mem_cons_of_mem _ hj)) (addSPCourse vars ns m sets i)
      refine ⟨ds1 ++ ds2, cs1 ++ cs2, ?_, ?_, ?_, ?_⟩
      · rw [hd2, hd1, List.append_assoc]
      · intro d hd
        rcases List.mem_append.mp hd with h | h
        · exact hb1 d h
        · exact hb2 d h
      · rw [hc2, hc1, List.append_assoc]
      · intro c hc
        rcases List.mem_append.mp hc with h | h
        · exact hs1 c h
        · refine spNewConstr_mono ?_ (hs2 c h)
          rw [hd1]
          simp
    · simp only [hcount, if_false]
      exact ih (fun j hj => hl j (List.mem_cons_of_mem _ hj)) m

/-- Evaluation only depends on the assignment's values at the variables
the expression mentions. -/
theorem eval_congr_below {e : LinearExpr} {n : Nat} {σ σ2 : Nat → Int}
    (he : exprVarsBelow e n) (hσ : ∀ v < n, σ2 v = σ v) :
    e.eval σ2 = e.eval σ := by
  simp only [LinearExpr.eval]
  congr 1
  refine congrArg List.sum (List.map_congr_left ?_)
  intro t ht
  rw [hσ t.2 (he t ht)]

theorem holds_congr_below {c : Constr} {n : Nat} {σ σ2 : Nat → Int}
    (hc : c.varsBelow n) (hσ : ∀ v < n, σ2 v = σ v) :
    c.holds σ2 ↔ c.holds σ := by
  cases c with
  | le a b =>
    obtain ⟨ha, hb⟩ := hc
    simp only [Constr.holds]
    rw [eval_congr_below ha hσ, eval_congr_below hb hσ]
  | ge a b =>
    obtain ⟨ha, hb⟩ := hc
    simp only [Constr.holds]
    rw [eval_congr_below ha hσ, eval_congr_below hb hσ]
  | eqc a b =>
    obtain ⟨ha, hb⟩ := hc
    simp only [Constr.holds]
    rw [eval_congr_below ha hσ, eval_congr_below hb hσ]

/-- Claim C9 (confirmed): the Skill-and-Perspective block never restricts
the decision matrix.  Backward: any assignment feasible for the model
with the S&P block is feasible for the model without it.  Forward: any
assignment feasible for the base model extends — by zeroing every fresh
used-for-category variable — to one feasible for the model with the S&P
block, and the extension agrees with the original on every base variable.
So the two models have exactly the same feasible decision-variable
assignments. -/
theorem c9_theorem (vars : List (List Nat)) (ns : Nat) (m : Model)
    (sets : List (List Nat))
    (hwf : ∀ c ∈ m.constrs, c.varsBelow m.doms.length)
    (hdec : ∀ idx ∈ spCourseList sets, ∀ s < ns,
      varAt vars idx s < m.doms.length ∧
      m.doms.getD (varAt vars idx s) [] = [((0 : Int), (1 : Int))]) :
    (∀ σ, (addSPConstraints vars ns m sets).Feasible σ → m.Feasible σ) ∧
    (∀ σ, m.Feasible σ →
      (addSPConstraints vars ns m sets).Feasible
        (fun v => if v < m.doms.length then σ v else 0) ∧
      (∀ v < m.doms.length,
        (fun v => if v < m.doms.length then σ v else 0) v = σ v)) := by
  obtain ⟨ds, cs, hd0, hb, hc0, hs⟩ :=
    addSPConstraints_spec vars ns sets (spCourseList sets) (fun i hi => hi) m
  have hd : (addSPConstraints vars ns m sets).doms = m.doms ++ ds := hd0
  have hc : (addSPConstraints vars ns m sets).constrs = m.constrs ++ cs := hc0
  constructor
  · intro σ hfeas
    exact feasible_mono (modelExt_addSPConstraints vars ns m sets) hfeas
  · intro σ hfeas
    have hagree : ∀ v < m.doms.length,
        (fun v => if v < m.doms.length then σ v else 0) v = σ v := by
      intro v hv
      simp [hv]
    refine ⟨⟨?_, ?_⟩, hagree⟩
    · intro v hv
      show InDom ((addSPConstraints vars ns m sets).doms.getD v [])
        (if v < m.doms.length then σ v else 0)
      by_cases hvm : v < m.doms.length
      · rw [if_pos hvm]
        rw [hd, List.getD_append _ _ _ _ hvm]
        exact hfeas.1 v hvm
      · rw [if_neg hvm]
        rw [hd] at hv ⊢
        rw [getD_append_right_of_le _ _ _ _ (Nat.le_of_not_lt hvm)]
        have hvlen : v - m.doms.length < ds.length := by
          simp only [List.length_append] at hv
          omega
        have hmem : ds.getD (v - m.doms.length) [] ∈ ds := by
          rw [List.getD_eq_getElem?_getD, List.getElem?_eq_getElem hvlen]
          simp only [Option.getD_some]
          exact List.getElem_mem hvlen
        rw [hb _ hmem]
        exact ⟨((0 : Int), (1 : Int)), by simp, by omega, by omega⟩
    · intro c hcm
      rw [hc] at hcm
      rcases List.mem_append.mp hcm with hold | hnew
      · have := hfeas.2 c hold
        exact (holds_congr_below (hwf c hold) hagree).mpr this
      · rcases hs c hnew with ⟨u, idx, hu, hidx, rfl⟩ | ⟨us, hus, rfl⟩
        · show ((LinearExpr.ofVar u).eval
            (fun v => if v < m.doms.length then σ v else 0)) ≤
            ((course_in_schedule vars ns idx).eval
              (fun v => if v < m.doms.length then σ v else 0))
          rw [eval_ofVar, if_neg (by omega), eval_course_in_schedule]
          refine List.sum_nonneg ?_
          intro x hx
          obtain ⟨s, hsr, rfl⟩ := List.mem_map.mp hx
          have hslt := List.mem_range.mp hsr
          obtain ⟨hvlt, hvdom⟩ := hdec idx hidx s hslt
          rw [if_pos hvlt]
          have hin := hfeas.1 _ hvlt
          rw [hvdom] at hin
          rcases indom_bool_cases hin with h0 | h1
          · omega
          · omega
        · show ((sumVarExprs us).eval
            (fun v => if v < m.doms.length then σ v else 0)) ≤
            ((LinearExpr.ofInt 3).eval (fun v => if v < m.doms.length then σ v else 0))
          rw [eval_sumVarExprs, eval_ofInt]
          have hzero : (us.map (fun v => if v < m.doms.length then σ v else 0)).sum = 0 := by
            refine List.sum_eq_zero ?_
            intro x hx
            obtain ⟨u, hu, rfl⟩ := List.mem_map.mp hx
            rw [if_neg (by have := hus u hu; omega)]
          rw [hzero]
          omega

/-- Witness for C9 at a concrete instance: one course with row `[0, 1]`
over two semesters, a base model of two boolean variables and no
constraints, and four S&P requirements all naming the course. -/
theorem c9_witness :
    (∀ σ, (addSPConstraints [[0, 1]] 2
        ⟨[[((0 : Int), (1 : Int))], [((0 : Int), (1 : Int))]], [], none⟩
        [[0], [0], [0], [0]]).Feasible σ →
      (⟨[[((0 : Int), (1 : Int))], [((0 : Int), (1 : Int))]], [], none⟩ : Model).Feasible σ) ∧
    (∀ σ, (⟨[[((0 : Int), (1 : Int))], [((0 : Int), (1 : Int))]], [], none⟩ : Model).Feasible σ →
      (addSPConstraints [[0, 1]] 2
        ⟨[[((0 : Int), (1 : Int))], [((0 : Int), (1 : Int))]], [], none⟩
        [[0], [0], [0], [0]]).Feasible (fun v => if v < 2 then σ v else 0) ∧
      (∀ v < 2, (fun v => if v < 2 then σ v else 0) v = σ v)) :=
  c9_theorem [[0, 1]] 2 ⟨[[((0 : Int), (1 : Int))], [((0 : Int), (1 : Int))]], [], none⟩
    [[0], [0], [0], [0]] (by simp) (by decide)
